import Mathlib

/-!
Verification of the crawla crawl engine.

This file gives a shallow embedding, in Lean 4, of the core of the
crawla repository: the worker pool (src/utils/worker-pool.js), the
token-bucket rate limiter (src/utils/rate-limiter.js), the retrying
request wrapper and paginated following fetch (src/api/twitter.js),
the cache-aware API client (src/api/client.js), and the BFS crawler
orchestration (src/crawler/processor.js) together with the slice of
the sqlite store it touches (src/db/sqlite.js).

Pure functions of the source are translated to Lean functions;
stateful code is translated to explicit state passing (stores become
functions from keys to optional records, the worker pool becomes a
step relation / deterministic runner over an explicit pool state);
remote calls, the classifier and the clock are oracles passed as
arguments; JavaScript truthiness of possibly-absent fields is
rendered with Option.
-/

namespace Crawla

/-! ## Data model

A JS user object as it flows through the crawler.  Objects coming
straight from the remote API carry only the profile fields; objects
read back from the sqlite store additionally carry the crawl
bookkeeping fields.  Fields that may be absent on a JS object
(undefined) are Options; JS truthiness of such a field is
`= some true` (for booleans) / `.isSome` (for last_updated). -/
structure JsUser where
  user_id : String
  username : String
  follower_count : Nat
  last_updated : Option Nat
  followers_crawled : Option Bool
  bfs_depth : Option Nat
  is_in_niche : Option Bool
  checked_in_niche : Option Bool
  deriving DecidableEq, Repr

/-- A tweet record; only the fields the crawl engine inspects. -/
structure Tweet where
  tweet_id : String
  text : String
  deriving DecidableEq, Repr

/-- A work item of the worker pool queue: (account id, discovery depth).
The JS item also carries the user object, which the processor
re-fetches from the db/API, so the id and depth are the payload. -/
structure WorkItem where
  user_id : String
  depth : Nat
  deriving DecidableEq, Repr

/-- The users table of the sqlite store, as a map from user_id to row. -/
def Store : Type := String → Option JsUser

/-- db.getUser: SELECT * FROM users WHERE user_id = ?. -/
def getUser (db : Store) (userId : String) : Option JsUser := db userId

/-- db.saveUser: INSERT OR REPLACE keyed on user_id. -/
def saveUser (db : Store) (u : JsUser) : Store :=
  fun k => if k = u.user_id then some u else db k

/-- db.userExists: SELECT 1 FROM users WHERE user_id = ?. -/
def userExists (db : Store) (userId : String) : Bool :=
  (db userId).isSome

/-- db.markFollowersCrawled: UPDATE users SET followers_crawled = TRUE. -/
def markFollowersCrawled (db : Store) (userId : String) : Store :=
  fun k =>
    if k = userId then
      match db k with
      | some u => some { u with followers_crawled := some true }
      | none => none
    else db k

/-- The tweets table, keyed by owning user (most recent first, as the
ORDER BY timestamp DESC query returns them). -/
def TweetStore : Type := String → List Tweet

/-- The empty users table. -/
def emptyStore : Store := fun _ => none

/-- Crawl configuration (src/config.js): popularity floor, depth
ceiling, refresh threshold in hours (none models Infinity, which is
what config.js hardcodes). -/
structure CrawlConfig where
  minFollowers : Nat
  maxDepth : Nat
  refreshHours : Option ℚ
  deriving DecidableEq, Repr

/-! ## Staleness and the cache-aware accessor (src/db/sqlite.js,
src/api/client.js) -/

/-- db.isUserStale: true when the user is absent, or when the hours
elapsed since last_updated exceed the threshold.  A threshold of
Infinity (none) is never exceeded, matching the JS comparison
`hoursSinceUpdate > Infinity` being false. -/
def isUserStale (db : Store) (userId : String) (refreshHours : Option ℚ)
    (now : Nat) : Bool :=
  match db userId with
  | none => true
  | some u =>
    match refreshHours with
    | none => false
    | some rh =>
      match u.last_updated with
      | none => false
      | some lu => decide ((((now : ℚ) - lu) / (1000 * 60 * 60)) > rh)

/-- ApiClient.getUserDetails for an identifier that carries a user_id:
return the cached row when it exists and is not stale, otherwise hit
the remote API (the remote call is the oracle argument). -/
def clientGetUserDetails (db : Store) (refreshHours : Option ℚ) (now : Nat)
    (remote : String → JsUser) (userId : String) : JsUser :=
  match db userId with
  | some cached =>
    if isUserStale db userId refreshHours now then remote userId else cached
  | none => remote userId

/-- ApiClient.getUserTweets: return the stored tweets when any exist,
otherwise fetch remotely. -/
def clientGetUserTweets (tweetDb : TweetStore) (remoteTweets : String → List Tweet)
    (userId : String) : List Tweet :=
  let cached := tweetDb userId
  if cached.isEmpty then remoteTweets userId else cached

/-! ## Expansion gating (src/crawler/processor.js) -/

/-- Crawler.shouldAddUsersFollowing: expand when the follower count is
at least the popularity floor and the item depth is at most the depth
ceiling. -/
def shouldAddUsersFollowing (cfg : CrawlConfig) (user : JsUser) (depth : Nat) : Bool :=
  decide (cfg.minFollowers ≤ user.follower_count) && decide (depth ≤ cfg.maxDepth)

/-! ## Token bucket rate limiter (src/utils/rate-limiter.js)

Times are rational numbers of milliseconds (Date.now values), tokens
are rational (the bucket holds fractional tokens). -/

structure TokenBucket where
  tokens : ℚ
  lastRefill : ℚ
  refillRate : ℚ
  capacity : ℚ
  deriving DecidableEq, Repr

namespace TokenBucket

/-- TokenBucket.refill: top up by elapsedSeconds * refillRate, clamped
above by capacity, and stamp lastRefill.  There is no clamp below. -/
def refill (b : TokenBucket) (now : ℚ) : TokenBucket :=
  let timePassed := (now - b.lastRefill) / 1000
  let newTokens := timePassed * b.refillRate
  { b with tokens := min b.capacity (b.tokens + newTokens), lastRefill := now }

/-- TokenBucket.consume run to completion with no interference from
other callers: refill; if below one token, suspend for exactly
`(1 - tokens) / refillRate` seconds (plus a nonnegative timer
overshoot), refill again, then debit one token.  Returns the bucket
and the time at which the call returns. -/
def consume (b : TokenBucket) (now : ℚ) (overshoot : ℚ) : TokenBucket × ℚ :=
  let b1 := refill b now
  if b1.tokens < 1 then
    let waitMs := (1 - b1.tokens) / b1.refillRate * 1000
    let t2 := now + waitMs + overshoot
    let b2 := refill b1 t2
    ({ b2 with tokens := b2.tokens - 1 }, t2)
  else
    ({ b1 with tokens := b1.tokens - 1 }, now)

/-- An atomic segment acting on the shared bucket.  Every execution of
consume, suspended or not, is a sequence of such segments: a refill at
some instant, and a debit of one token; interleavings of concurrent
consume calls are interleavings of their segments. -/
inductive BucketOp where
  | refillAt (now : ℚ)
  | debit
  deriving DecidableEq, Repr

/-- Apply one atomic segment. -/
def applyOp (b : TokenBucket) : BucketOp → TokenBucket
  | .refillAt t => refill b t
  | .debit => { b with tokens := b.tokens - 1 }

/-- Apply a sequence of atomic segments. -/
def applyOps (b : TokenBucket) (ops : List BucketOp) : TokenBucket :=
  ops.foldl applyOp b

/-- Two consume() calls that both find the bucket below one token at
the same instant t0, suspend for the identical computed wait, and then
wake one after the other.  Each line is the corresponding line of
consume acting on the shared bucket; caller A runs its second refill
and debit before caller B. -/
def consumeInterleavedPair (b : TokenBucket) (t0 : ℚ) : TokenBucket :=
  let bA := refill b t0
  let waitA := (1 - bA.tokens) / bA.refillRate * 1000
  let bB := refill bA t0
  let waitB := (1 - bB.tokens) / bB.refillRate * 1000
  let bA2 := refill bB (t0 + waitA)
  let bA3 := { bA2 with tokens := bA2.tokens - 1 }
  let bB2 := refill bA3 (t0 + waitB)
  { bB2 with tokens := bB2.tokens - 1 }

end TokenBucket

/-! ## Retrying request wrapper (src/api/twitter.js, makeRequest)

The remote endpoint is modelled as a schedule of per-attempt
outcomes: the n-th entry is what the n-th issued HTTP request does
(succeed with a payload, or fail, possibly with HTTP status 429). -/

inductive ReqOutcome where
  | success (v : Nat)
  | failure (is429 : Bool) (code : Nat)
  deriving DecidableEq, Repr

/-- What makeRequest ultimately throws: either an error object from a
response (identified by its 429 flag and code), or the generic
"Max retry attempts reached" error thrown after the while loop. -/
inductive ReqError where
  | fromResponse (is429 : Bool) (code : Nat)
  | maxRetriesReached
  deriving DecidableEq, Repr

/-- A makeRequest call either returns response data or throws. -/
inductive ReqOutput where
  | ok (v : Nat)
  | error (e : ReqError)
  deriving DecidableEq, Repr

/-- The observable effects of one makeRequest call: its outcome, how
many times it awaited the rate limiter's consume(), how many HTTP
requests it issued, and the backoff sleeps it performed (ms, in
order). -/
structure ReqResult where
  result : ReqOutput
  consumes : Nat
  tried : Nat
  waitsMs : List Nat
  deriving DecidableEq, Repr

/-- The fixed attempt budget of makeRequest. -/
def maxAttempts : Nat := 5

/-- The body of makeRequest's while loop.  attempts/consumes/tried
and the accumulated waits mirror the JS local state; each iteration
awaits consume() and issues one request (consuming one scheduled
outcome).  On a 429 the code sleeps 2^attempts seconds and continues
(skipping the attempts-exhausted throw); on another failure it either
rethrows the caught error when the budget is exhausted or sleeps
attempts seconds; after the loop the generic error is thrown.
Returns none when the outcome schedule is shorter than the run. -/
def makeRequestGo (outcomes : List ReqOutcome) (attempts consumes tried : Nat)
    (waits : List Nat) : Option ReqResult :=
  if attempts < maxAttempts then
    match outcomes with
    | [] => none
    | o :: rest =>
      match o with
      | .success v => some ⟨ReqOutput.ok v, consumes + 1, tried + 1, waits⟩
      | .failure is429 code =>
        if is429 then
          makeRequestGo rest (attempts + 1) (consumes + 1) (tried + 1)
            (waits ++ [Nat.pow 2 (attempts + 1) * 1000])
        else if attempts + 1 = maxAttempts then
          some ⟨ReqOutput.error (.fromResponse is429 code), consumes + 1, tried + 1, waits⟩
        else
          makeRequestGo rest (attempts + 1) (consumes + 1) (tried + 1)
            (waits ++ [1000 * (attempts + 1)])
  else
    some ⟨ReqOutput.error .maxRetriesReached, consumes, tried, waits⟩

/-- makeRequest: run the retry loop from a fresh state. -/
def makeRequest (outcomes : List ReqOutcome) : Option ReqResult :=
  makeRequestGo outcomes 0 0 0 []

/-- Build a failure outcome from its (is429, code) description. -/
def mkFailure (f : Bool × Nat) : ReqOutcome :=
  ReqOutcome.failure f.1 f.2

/-- The backoff sleeps a run of consecutive failures produces when the
first of them is attempt number a+1: 2^attempt seconds for a 429,
attempt seconds otherwise. -/
def failWaits (fs : List (Bool × Nat)) (a : Nat) : List Nat :=
  match fs with
  | [] => []
  | f :: r =>
    (if f.1 then Nat.pow 2 (a + 1) * 1000 else 1000 * (a + 1)) :: failWaits r (a + 1)

/-! ## Paginated following fetch (src/api/twitter.js, getFollowing)

The remote endpoint is modelled as the sequence of pages the
continuation-token chain yields; an empty page models a response with
no results.  The second component of the result counts the fixed
1000 ms sleeps inserted after each fetched page. -/

/-- The body of getFollowing's while loop: while fewer than maxLimit
entries are accumulated, fetch the next page; stop when it has no
results, otherwise append it, sleep, and continue. -/
def getFollowingGo (pages : List (List JsUser)) (maxLimit : Nat)
    (acc : List JsUser) (sleeps : Nat) : List JsUser × Nat :=
  if maxLimit ≤ acc.length then (acc, sleeps)
  else
    match pages with
    | [] => (acc, sleeps)
    | p :: rest =>
      if p.isEmpty then (acc, sleeps)
      else getFollowingGo rest maxLimit (acc ++ p) (sleeps + 1)

/-- getFollowing with a given page schedule and result cap (the JS
default cap is 2500). -/
def getFollowing (pages : List (List JsUser)) (maxLimit : Nat) : List JsUser × Nat :=
  getFollowingGo pages maxLimit [] 0

/-- A minimal followee object as returned by the remote API (no
bookkeeping fields). -/
def mkFollowee (i : String) : JsUser :=
  ⟨i, i, 0, none, none, none, none, none⟩

/-! ## BFS crawler orchestration (src/crawler/processor.js) -/

/-- The persistent state processUser touches: the users table and the
tweets table. -/
structure CrawlerDb where
  users : Store
  tweets : TweetStore

/-- The observable outcome of one processUser call: the store
afterwards, the returned user object, and whether the classifier
(NicheDetector.isUserInNiche) was invoked. -/
structure ProcResult where
  db : CrawlerDb
  result : Option JsUser
  classifierCalled : Bool

/-- The fields Crawler.processUser stamps onto the fetched user
before saving it after a classification run. -/
def classifiedRecord (user : JsUser) (isInNiche : Bool) (now depth : Nat) : JsUser :=
  { user with
    last_updated := some now
    followers_crawled := some false
    bfs_depth := some depth
    is_in_niche := some isInNiche
    checked_in_niche := some true }

/-- Crawler.processUser: fetch the account and its recent tweets
through the cache-aware client; if the fetched record is already
marked checked_in_niche, return it at once; otherwise classify,
save the updated account, and save the fetched tweets (saveTweets
itself skips the write when the owner row is missing). -/
def processUser (cfg : CrawlConfig) (db : CrawlerDb) (remoteUser : String → JsUser)
    (remoteTweets : String → List Tweet) (classifier : JsUser → List Tweet → Bool)
    (now : Nat) (item : WorkItem) : ProcResult :=
  let user := clientGetUserDetails db.users cfg.refreshHours now remoteUser item.user_id
  let tweets := clientGetUserTweets db.tweets remoteTweets item.user_id
  if user.checked_in_niche = some true then
    ⟨db, some user, false⟩
  else
    let isInNiche := classifier user tweets
    let userData := classifiedRecord user isInNiche now item.depth
    let users1 := saveUser db.users userData
    let db2 : CrawlerDb :=
      if tweets.isEmpty then ⟨users1, db.tweets⟩
      else if userExists users1 item.user_id then
        ⟨users1, fun k => if k = item.user_id then tweets else db.tweets k⟩
      else ⟨users1, db.tweets⟩
    ⟨db2, some userData, true⟩

/-- The record Crawler.addNewUsers persists for a followee that is
not yet in the db: not yet classified, not expanded, at the given
depth. -/
def discoveredRecord (user : JsUser) (now depth : Nat) : JsUser :=
  { user with
    last_updated := some now
    followers_crawled := some false
    bfs_depth := some depth
    is_in_niche := some false
    checked_in_niche := some false }

/-- The filter phase of Crawler.addNewUsers: keep each followee whose
id is not yet in the seenUsers set, inserting the id as it is tested
(test-and-set); the db is not consulted (the userExists check is
commented out in the source). -/
def addNewUsersFilter (seen : Finset String) :
    List JsUser → Finset String × List JsUser
  | [] => (seen, [])
  | u :: rest =>
    if u.user_id ∈ seen then addNewUsersFilter seen rest
    else
      let r := addNewUsersFilter (insert u.user_id seen) rest
      (r.1, u :: r.2)

/-- The forEach phase of Crawler.addNewUsers: a kept followee whose
object already carries a last_updated timestamp is skipped (already
in the db); the others are saved as fresh unclassified records. -/
def addNewUsersSave (now depth : Nat) : List JsUser → Store → Store
  | [], db => db
  | u :: rest, db =>
    let db2 := if u.last_updated.isSome then db
      else saveUser db (discoveredRecord u now depth)
    addNewUsersSave now depth rest db2

/-- The outcome of one addNewUsers call: the seenUsers set and users
table afterwards, and the work items pushed to the pool. -/
structure AddNewUsersResult where
  seen : Finset String
  db : Store
  newItems : List WorkItem

/-- Crawler.addNewUsers: filter by the visited set, persist the kept
followees that have no prior record, and enqueue all kept followees
at the given depth. -/
def addNewUsers (seen : Finset String) (db : Store) (now : Nat)
    (users : List JsUser) (depth : Nat) : AddNewUsersResult :=
  let f := addNewUsersFilter seen users
  ⟨f.1, addNewUsersSave now depth f.2 db,
    f.2.map (fun u => ⟨u.user_id, depth⟩)⟩

/-- The following_relationships table: for each account, the followee
ids recorded for it. -/
def EdgeStore : Type := String → List String

/-- db.saveFollowingRelationships: INSERT OR REPLACE on the
(user_id, following_id) primary key, so the stored key set becomes
the union of the old rows and the new followee ids. -/
def saveFollowingRelationships (e : EdgeStore) (userId : String)
    (following : List JsUser) : EdgeStore :=
  fun k =>
    if k = userId then
      e userId ++ ((following.map JsUser.user_id).dedup.filter
        (fun i => !(e userId).contains i))
    else e k

/-- The outcome of the conditional expansion step. -/
structure ExpandResult where
  seen : Finset String
  users : Store
  edges : EdgeStore
  newItems : List WorkItem

/-- The expansion half of the processUserAndFollowing handler: when
processUser returned a user that is in the niche and passes
shouldAddUsersFollowing at the item's depth, fetch its following
list (the oracle argument), add the new users at depth + 1, record
the edge batch, and mark the account followers_crawled; otherwise
nothing happens. -/
def processUserAndFollowingExpand (cfg : CrawlConfig) (seen : Finset String)
    (db : Store) (edges : EdgeStore) (now : Nat) (user : Option JsUser)
    (item : WorkItem) (following : List JsUser) : ExpandResult :=
  match user with
  | none => ⟨seen, db, edges, []⟩
  | some u =>
    if u.is_in_niche = some true && shouldAddUsersFollowing cfg u item.depth then
      let r := addNewUsers seen db now following (item.depth + 1)
      ⟨r.seen, markFollowersCrawled r.db u.user_id,
        saveFollowingRelationships edges u.user_id following, r.newItems⟩
    else ⟨seen, db, edges, []⟩

/-! ## Worker pool, event model (src/utils/worker-pool.js)

Items are identified the way the JS Set identifies them: by object
reference, modelled as a Nat id.  Two queue entries with the same id
model the same object enqueued twice; `processing.add` on it is then
a no-op and the first handler to settle deletes it for both.

The model is a step relation over the observable scheduler actions:
appending items (the constructor argument of process, or an addItems
call at any await point), dispatching the queue head while the Set is
below maxConcurrent, and the settling of one in-flight handler
invocation.  `running` lists the dispatched, not-yet-settled handler
invocations; `processing` is the JS Set; `dupDispatch` is a ghost
flag recording whether some dispatch found its item already in the
Set. -/

/-- A JS Set of item ids, as an insertion-ordered duplicate-free
list: add is a no-op on a present member, delete removes it, size is
the length. -/
def setInsert (i : Nat) (s : List Nat) : List Nat :=
  if i ∈ s then s else i :: s

structure PoolState where
  queue : List Nat
  running : List Nat
  processing : List Nat
  dupDispatch : Bool
  deriving DecidableEq, Repr

inductive PoolEvent where
  | addItems (l : List Nat)
  | dispatch
  | complete (i : Nat)
  deriving DecidableEq, Repr

/-- One scheduler action of WorkerPool.process.  dispatch requires
processing.size < maxConcurrent and a nonempty queue (the inner while
guard); it shifts the head, adds it to the Set, and starts its
handler.  complete i settles one running invocation of item i: the
finally block deletes i from the Set. -/
def poolStep (maxConcurrent : Nat) (st : PoolState) : PoolEvent → Option PoolState
  | .addItems l => some { st with queue := st.queue ++ l }
  | .dispatch =>
    match st.queue with
    | [] => none
    | i :: rest =>
      if st.processing.length < maxConcurrent then
        some ⟨rest, i :: st.running, setInsert i st.processing,
          st.dupDispatch || decide (i ∈ st.processing)⟩
      else none
  | .complete i =>
    if i ∈ st.running then
      some ⟨st.queue, st.running.erase i, st.processing.erase i, st.dupDispatch⟩
    else none

/-- Run a sequence of scheduler actions. -/
def poolRun (maxConcurrent : Nat) : List PoolEvent → PoolState → Option PoolState
  | [], st => some st
  | e :: es, st =>
    match poolStep maxConcurrent st e with
    | none => none
    | some st2 => poolRun maxConcurrent es st2

/-- The pool state at the start of process(items, handler). -/
def initPool (items : List Nat) : PoolState := ⟨items, [], [], false⟩

/-! ## Worker pool, deterministic scheduler rounds (src/utils/worker-pool.js)

A deterministic execution of WorkerPool.process: each outer-loop
round dispatches greedily (the inner while), then the 100 ms sleep
happens, during which one scheduled addItems batch lands and every
in-flight handler advances one tick, the finally block of each
finishing handler deleting its item from the Set.  Handler durations
in ticks are drawn per dispatch from a schedule (default one tick).
The outer guard - queue empty and Set empty - is checked at the top
of each round; process returns when it fails. -/

structure RunPoolState where
  queue : List Nat
  running : List (Nat × Nat)
  processing : List Nat
  dupDispatch : Bool
  deriving DecidableEq, Repr

/-- The inner dispatch while-loop: while the Set is below
maxConcurrent and the queue is nonempty, shift the head, draw its
handler duration, add it to the Set.  Returns the state, the unused
durations, and the items dispatched this round in order. -/
def dispatchLoop (maxConcurrent : Nat) :
    List Nat → List (Nat × Nat) → List Nat → Bool → List Nat →
      RunPoolState × List Nat × List Nat
  | [], run, ps, dup, durs => (⟨[], run, ps, dup⟩, durs, [])
  | i :: rest, run, ps, dup, durs =>
    if ps.length < maxConcurrent then
      let d := durs.headD 1
      let r := dispatchLoop maxConcurrent rest ((d, i) :: run) (setInsert i ps)
        (dup || decide (i ∈ ps)) durs.tail
      (r.1, r.2.1, i :: r.2.2)
    else (⟨i :: rest, run, ps, dup⟩, durs, [])

/-- One sleep tick: every in-flight invocation advances; those whose
remaining duration reaches zero settle, returning the survivors and
the settled item ids. -/
def tickRunning : List (Nat × Nat) → List (Nat × Nat) × List Nat
  | [] => ([], [])
  | (t, i) :: rest =>
    let r := tickRunning rest
    if t ≤ 1 then (r.1, i :: r.2) else ((t - 1, i) :: r.1, r.2)

/-- One round of the outer while loop: dispatch greedily, append the
round's addItems batch (landing during the sleep), advance the
handlers one tick, and run each settled handler's finally-delete on
the Set. -/
def poolIter (maxConcurrent : Nat) (st : RunPoolState) (durs : List Nat)
    (adds : List Nat) : RunPoolState × List Nat × List Nat :=
  let d := dispatchLoop maxConcurrent st.queue st.running st.processing
    st.dupDispatch durs
  let st1 := d.1
  let t := tickRunning st1.running
  let ps2 := t.2.foldl (fun s i => s.erase i) st1.processing
  (⟨st1.queue ++ adds, t.1, ps2, st1.dupDispatch⟩, d.2.1, d.2.2)

/-- WorkerPool.process as a fuel-bounded loop: check the outer guard;
when the queue and the Set are both empty, return (yielding the final
state, the dispatch log, and the unconsumed addItems schedule);
otherwise run one round and continue. -/
def runPool (maxConcurrent : Nat) :
    Nat → RunPoolState → List Nat → List (List Nat) → List Nat →
      Option (RunPoolState × List Nat × List (List Nat))
  | 0, _, _, _, _ => none
  | fuel + 1, st, durs, adds, disp =>
    if st.queue = [] ∧ st.processing = [] then some (st, disp, adds)
    else
      let r := poolIter maxConcurrent st durs (adds.headD [])
      runPool maxConcurrent fuel r.1 r.2.1 adds.tail (disp ++ r.2.2)

/-- process(items, handler) with a duration schedule and an addItems
schedule. -/
def workerPoolProcess (maxConcurrent fuel : Nat) (items durs : List Nat)
    (adds : List (List Nat)) :
    Option (RunPoolState × List Nat × List (List Nat)) :=
  runPool maxConcurrent fuel ⟨items, [], [], false⟩ durs adds []

end Crawla

namespace Crawla

/-- Claim C8 sanity: an otherwise arbitrary user template. -/
def sampleUser : JsUser :=
  ⟨"u1", "alice", 0, none, none, none, none, none⟩

/-- A stored record that was classified in a prior run (as cached
rows look: bookkeeping fields present, checked_in_niche set). -/
def recA : JsUser :=
  ⟨"a", "alice", 7000, some 5, some false, some 1, some true, some true⟩

/-- A crawler db holding exactly recA and no tweets. -/
def dbA : CrawlerDb :=
  ⟨saveUser emptyStore recA, fun _ => []⟩

/-- A processed user that is in the niche and above the floor. -/
def inNicheUserX : JsUser :=
  ⟨"x", "xavier", 10, some 1, some false, some 2, some true, some true⟩

/-- A stored followee whose following list was already expanded
(followers_crawled set), as cached-path followee objects look. -/
def crawledRecC : JsUser :=
  ⟨"c", "carol", 10, some 3, some true, some 0, some false, some true⟩

end Crawla

open Crawla

/-- Claim C8 (confirmed).  With the depth condition satisfied, an
account whose follower count equals the configured popularity floor
passes shouldAddUsersFollowing, and (when the floor is positive) an
account whose follower count is one below the floor does not, all
other expansion conditions being equal. -/
theorem claim_C8_popularity_floor_boundary (cfg : CrawlConfig) (u : JsUser)
    (d : Nat) (hd : d ≤ cfg.maxDepth) (hmf : 1 ≤ cfg.minFollowers) :
    shouldAddUsersFollowing cfg { u with follower_count := cfg.minFollowers } d = true ∧
    shouldAddUsersFollowing cfg { u with follower_count := cfg.minFollowers - 1 } d = false := by
  constructor
  · simp [shouldAddUsersFollowing, hd]
  · simp [shouldAddUsersFollowing, hd]
    omega

/-- Witness for claim C8 at a concrete configuration: floor 5000,
ceiling 3, depth 1. -/
theorem claim_C8_popularity_floor_boundary_witness :
    shouldAddUsersFollowing ⟨5000, 3, none⟩ { sampleUser with follower_count := 5000 } 1 = true ∧
    shouldAddUsersFollowing ⟨5000, 3, none⟩ { sampleUser with follower_count := 4999 } 1 = false :=
  claim_C8_popularity_floor_boundary ⟨5000, 3, none⟩ sampleUser 1 (by decide) (by decide)

/-- Helper: applying one atomic bucket segment keeps the token count
at or below the (unchanged) capacity. -/
theorem TokenBucket.applyOp_tokens_le (b : TokenBucket) (op : TokenBucket.BucketOp)
    (h : b.tokens ≤ b.capacity) :
    (TokenBucket.applyOp b op).tokens ≤ (TokenBucket.applyOp b op).capacity := by
  cases op with
  | refillAt t =>
    simp only [TokenBucket.applyOp, TokenBucket.refill]
    exact min_le_left _ _
  | debit =>
    simp only [TokenBucket.applyOp]
    linarith

/-- Claim C4 (corrected): the claimed invariant fails under concurrent
suspension.  Two consume() calls that both observe an empty bucket
(rate 10/s, capacity 10) at time 0 both compute a 100 ms wait; the
caller that wakes second refills over zero elapsed time and debits,
so its consume() returns with tokens = -1 < 0. -/
theorem claim_C4_counterexample :
    (TokenBucket.consumeInterleavedPair ⟨0, 0, 10, 10⟩ 0).tokens = -1 ∧
    (TokenBucket.consumeInterleavedPair ⟨0, 0, 10, 10⟩ 0).tokens < 0 := by
  constructor
  · norm_num [TokenBucket.consumeInterleavedPair, TokenBucket.refill]
  · norm_num [TokenBucket.consumeInterleavedPair, TokenBucket.refill]

/-- Claim C4 as amended: (1) across every interleaving of refill and
debit segments - hence in every state reachable under concurrent
consume() calls - tokens never exceeds capacity; (2) a consume() call
whose suspension is not interleaved with other callers' segments
returns with a nonnegative token count, provided capacity is at least
one token and the refill rate is positive (the timer may overshoot the
computed wait by any nonnegative amount). -/
theorem claim_C4_token_bucket_amended :
    (∀ (ops : List TokenBucket.BucketOp) (b : TokenBucket), b.tokens ≤ b.capacity →
      (TokenBucket.applyOps b ops).tokens ≤ (TokenBucket.applyOps b ops).capacity) ∧
    (∀ (b : TokenBucket) (now overshoot : ℚ), 1 ≤ b.capacity → 0 < b.refillRate →
      0 ≤ overshoot → 0 ≤ (TokenBucket.consume b now overshoot).1.tokens) := by
  constructor
  · intro ops
    induction ops with
    | nil => intro b h; simpa [TokenBucket.applyOps] using h
    | cons op rest ih =>
      intro b h
      have hstep := TokenBucket.applyOp_tokens_le b op h
      have heq : TokenBucket.applyOps b (op :: rest) =
          TokenBucket.applyOps (TokenBucket.applyOp b op) rest := rfl
      rw [heq]
      exact ih _ hstep
  · intro b now o hcap hrate ho
    have hrne : b.refillRate ≠ 0 := ne_of_gt hrate
    rw [TokenBucket.consume]
    by_cases hlt : (TokenBucket.refill b now).tokens < 1
    · rw [if_pos hlt]
      simp only [TokenBucket.refill]
      have key : (min b.capacity (b.tokens + (now - b.lastRefill) / 1000 * b.refillRate)) +
          (now + (1 - min b.capacity (b.tokens + (now - b.lastRefill) / 1000 * b.refillRate)) /
            b.refillRate * 1000 + o - now) / 1000 * b.refillRate =
          1 + o * b.refillRate / 1000 := by
        field_simp
        ring
      rw [key]
      have hone : (1 : ℚ) ≤ 1 + o * b.refillRate / 1000 := by
        have : 0 ≤ o * b.refillRate / 1000 := by positivity
        linarith
      have : (1 : ℚ) ≤ min b.capacity (1 + o * b.refillRate / 1000) :=
        le_min hcap hone
      linarith
    · rw [if_neg hlt]
      push_neg at hlt
      simp only []
      linarith

/-- Witness for the amended claim C4: a full bucket refilled and
debited once stays within capacity, and a consume() on an empty
bucket (rate 10/s, capacity 10) with an exact timer returns with a
nonnegative token count. -/
theorem claim_C4_token_bucket_amended_witness :
    (TokenBucket.applyOps ⟨10, 0, 10, 10⟩ [TokenBucket.BucketOp.refillAt 100,
        TokenBucket.BucketOp.debit]).tokens ≤
      (TokenBucket.applyOps ⟨10, 0, 10, 10⟩ [TokenBucket.BucketOp.refillAt 100,
        TokenBucket.BucketOp.debit]).capacity ∧
    0 ≤ (TokenBucket.consume ⟨0, 0, 10, 10⟩ 0 0).1.tokens :=
  ⟨claim_C4_token_bucket_amended.1 [TokenBucket.BucketOp.refillAt 100,
      TokenBucket.BucketOp.debit] ⟨10, 0, 10, 10⟩ (by norm_num),
    claim_C4_token_bucket_amended.2 ⟨0, 0, 10, 10⟩ 0 0 (by norm_num) (by norm_num)
      (by norm_num)⟩

/-- Helper: unfolding makeRequestGo when the attempt budget is
exhausted: the generic error is thrown without a further request. -/
theorem makeRequestGo_done (os : List ReqOutcome) (a c t : Nat) (w : List Nat)
    (h : ¬ a < maxAttempts) :
    makeRequestGo os a c t w = some ⟨ReqOutput.error .maxRetriesReached, c, t, w⟩ := by
  rw [makeRequestGo.eq_def, if_neg h]

/-- Helper: unfolding makeRequestGo on a successful attempt. -/
theorem makeRequestGo_success (v : Nat) (rest : List ReqOutcome) (a c t : Nat)
    (w : List Nat) (h : a < maxAttempts) :
    makeRequestGo (ReqOutcome.success v :: rest) a c t w =
      some ⟨ReqOutput.ok v, c + 1, t + 1, w⟩ := by
  rw [makeRequestGo, if_pos h]

/-- Helper: unfolding makeRequestGo on a rate-limited attempt: sleep
2^attempt seconds and continue, with no exhaustion check. -/
theorem makeRequestGo_fail429 (code : Nat) (rest : List ReqOutcome) (a c t : Nat)
    (w : List Nat) (h : a < maxAttempts) :
    makeRequestGo (ReqOutcome.failure true code :: rest) a c t w =
      makeRequestGo rest (a + 1) (c + 1) (t + 1) (w ++ [Nat.pow 2 (a + 1) * 1000]) := by
  rw [makeRequestGo, if_pos h]
  simp

/-- Helper: unfolding makeRequestGo on a non-429 failure that exhausts
the budget: the caught error itself is rethrown. -/
theorem makeRequestGo_failOther_exhausted (code : Nat) (rest : List ReqOutcome)
    (a c t : Nat) (w : List Nat) (h : a < maxAttempts) (h5 : a + 1 = maxAttempts) :
    makeRequestGo (ReqOutcome.failure false code :: rest) a c t w =
      some ⟨ReqOutput.error (.fromResponse false code), c + 1, t + 1, w⟩ := by
  rw [makeRequestGo, if_pos h]
  simp [h5]

/-- Helper: unfolding makeRequestGo on a non-429 failure with budget
remaining: sleep attempt seconds and retry. -/
theorem makeRequestGo_failOther_retry (code : Nat) (rest : List ReqOutcome)
    (a c t : Nat) (w : List Nat) (h : a < maxAttempts) (h5 : a + 1 ≠ maxAttempts) :
    makeRequestGo (ReqOutcome.failure false code :: rest) a c t w =
      makeRequestGo rest (a + 1) (c + 1) (t + 1) (w ++ [1000 * (a + 1)]) := by
  rw [makeRequestGo, if_pos h]
  simp [h5]

/-- Helper: running makeRequestGo across a block of consecutive
failures, none of which exhausts the budget, adds one consume, one
request and one policy-determined backoff sleep per failure. -/
theorem makeRequestGo_across_failures (fs : List (Bool × Nat)) :
    ∀ (os : List ReqOutcome) (a c t : Nat) (w : List Nat),
      a + fs.length < maxAttempts →
      makeRequestGo (fs.map mkFailure ++ os) a c t w =
        makeRequestGo os (a + fs.length) (c + fs.length) (t + fs.length)
          (w ++ failWaits fs a) := by
  induction fs with
  | nil => intro os a c t w _; simp [failWaits]
  | cons f r ih =>
    intro os a c t w h
    simp only [List.length_cons] at h
    have ha : a < maxAttempts := by omega
    obtain ⟨b, code⟩ := f
    have e1 : a + 1 + r.length = a + (r.length + 1) := by omega
    have e2 : c + 1 + r.length = c + (r.length + 1) := by omega
    have e3 : t + 1 + r.length = t + (r.length + 1) := by omega
    cases b with
    | true =>
      rw [List.map_cons, List.cons_append, mkFailure,
        makeRequestGo_fail429 code _ a c t w ha,
        ih os (a + 1) (c + 1) (t + 1) _ (by omega), e1, e2, e3]
      simp [failWaits]
    | false =>
      have h5 : a + 1 ≠ maxAttempts := by omega
      rw [List.map_cons, List.cons_append, mkFailure,
        makeRequestGo_failOther_retry code _ a c t w ha h5,
        ih os (a + 1) (c + 1) (t + 1) _ (by omega), e1, e2, e3]
      simp [failWaits]

/-- Helper: the rate limiter is awaited exactly once per issued
request: consume count and request count advance in lockstep. -/
theorem makeRequestGo_consumes_eq_tried (os : List ReqOutcome) :
    ∀ (a c t : Nat) (w : List Nat) (r : ReqResult),
      makeRequestGo os a c t w = some r → r.consumes + t = r.tried + c := by
  induction os with
  | nil =>
    intro a c t w r hr
    by_cases h : a < maxAttempts
    · rw [makeRequestGo.eq_def, if_pos h] at hr; cases hr
    · rw [makeRequestGo_done _ _ _ _ _ h] at hr
      cases hr
      simp
      omega
  | cons o rest ih =>
    intro a c t w r hr
    by_cases h : a < maxAttempts
    · cases o with
      | success v =>
        rw [makeRequestGo_success _ _ _ _ _ _ h] at hr
        cases hr
        simp
        omega
      | failure is429 code =>
        cases is429 with
        | true =>
          rw [makeRequestGo_fail429 _ _ _ _ _ _ h] at hr
          have := ih _ _ _ _ _ hr
          omega
        | false =>
          by_cases h5 : a + 1 = maxAttempts
          · rw [makeRequestGo_failOther_exhausted _ _ _ _ _ _ h h5] at hr
            cases hr
            simp
            omega
          · rw [makeRequestGo_failOther_retry _ _ _ _ _ _ h h5] at hr
            have := ih _ _ _ _ _ hr
            omega
    · rw [makeRequestGo_done _ _ _ _ _ h] at hr
      cases hr
      simp
      omega

/-- Claim C7 (corrected): counterexample to "after the maximum attempt
count the call surfaces the final error".  Five consecutive 429
responses exhaust the budget through the continue-branch, which skips
the rethrow of the caught error; the loop then falls through and
throws the generic "Max retry attempts reached" error, not the final
(429) response error. -/
theorem claim_C7_counterexample :
    makeRequest (List.replicate 5 (ReqOutcome.failure true 429)) =
      some ⟨ReqOutput.error .maxRetriesReached, 5, 5, [2000, 4000, 8000, 16000, 32000]⟩ ∧
    ReqError.maxRetriesReached ≠ ReqError.fromResponse true 429 := by
  constructor
  · decide
  · decide

/-- Claim C7 as amended: every request first awaits the rate limiter's
consume() (one consume per issued request); a 429 failure is retried
after 2^attempt seconds of backoff and any other failure after
attempt seconds of linear backoff; the call fails hard after the
fixed maximum of five attempts without issuing further requests,
surfacing the final error when the fifth failure is not a 429 and the
generic max-retries error when it is. -/
theorem claim_C7_retry_policy_amended :
    (∀ (fs : List (Bool × Nat)) (v : Nat) (rest : List ReqOutcome),
      fs.length < maxAttempts →
      makeRequest (fs.map mkFailure ++ ReqOutcome.success v :: rest) =
        some ⟨ReqOutput.ok v, fs.length + 1, fs.length + 1, failWaits fs 0⟩) ∧
    (∀ (fs : List (Bool × Nat)) (code : Nat) (rest : List ReqOutcome),
      fs.length = 4 →
      makeRequest (fs.map mkFailure ++ ReqOutcome.failure false code :: rest) =
        some ⟨ReqOutput.error (.fromResponse false code), 5, 5, failWaits fs 0⟩) ∧
    (∀ (fs : List (Bool × Nat)) (code : Nat) (rest : List ReqOutcome),
      fs.length = 4 →
      makeRequest (fs.map mkFailure ++ ReqOutcome.failure true code :: rest) =
        some ⟨ReqOutput.error .maxRetriesReached, 5, 5, failWaits fs 0 ++ [32000]⟩) ∧
    (∀ (os : List ReqOutcome) (r : ReqResult),
      makeRequest os = some r → r.consumes = r.tried) := by
  refine ⟨?_, ?_, ?_, ?_⟩
  · intro fs v rest h
    rw [makeRequest, makeRequestGo_across_failures fs _ 0 0 0 [] (by simpa using h),
      makeRequestGo_success _ _ _ _ _ _ (by simpa using h)]
    simp
  · intro fs code rest h
    have h04 : 0 + fs.length < maxAttempts := by simp [maxAttempts]; omega
    rw [makeRequest, makeRequestGo_across_failures fs _ 0 0 0 [] h04,
      makeRequestGo_failOther_exhausted _ _ _ _ _ _ h04 (by simp [maxAttempts]; omega)]
    simp [h]
  · intro fs code rest h
    have h04 : 0 + fs.length < maxAttempts := by simp [maxAttempts]; omega
    rw [makeRequest, makeRequestGo_across_failures fs _ 0 0 0 [] h04,
      makeRequestGo_fail429 _ _ _ _ _ _ h04,
      makeRequestGo_done _ _ _ _ _ (by simp [maxAttempts]; omega)]
    simp [h]
  · intro os r hr
    have := makeRequestGo_consumes_eq_tried os 0 0 0 [] r hr
    omega

/-- Witness for the amended claim C7 at concrete schedules: one 429
then success; four mixed failures then a non-429 failure; four mixed
failures then a 429; a lone success for the consume-per-request
clause. -/
theorem claim_C7_retry_policy_amended_witness :
    makeRequest [mkFailure (true, 1), ReqOutcome.success 42] =
      some ⟨ReqOutput.ok 42, 2, 2, [2000]⟩ ∧
    makeRequest (List.map mkFailure [(true, 1), (false, 2), (true, 3), (false, 4)] ++
        [ReqOutcome.failure false 9]) =
      some ⟨ReqOutput.error (.fromResponse false 9), 5, 5, [2000, 2000, 8000, 4000]⟩ ∧
    makeRequest (List.map mkFailure [(true, 1), (false, 2), (true, 3), (false, 4)] ++
        [ReqOutcome.failure true 9]) =
      some ⟨ReqOutput.error .maxRetriesReached, 5, 5, [2000, 2000, 8000, 4000, 32000]⟩ ∧
    (⟨ReqOutput.ok 7, 1, 1, []⟩ : ReqResult).consumes =
      (⟨ReqOutput.ok 7, 1, 1, []⟩ : ReqResult).tried :=
  ⟨(claim_C7_retry_policy_amended.1 [(true, 1)] 42 [] (by decide)).trans (by decide),
   (claim_C7_retry_policy_amended.2.1 [(true, 1), (false, 2), (true, 3), (false, 4)] 9 []
     (by decide)).trans (by decide),
   (claim_C7_retry_policy_amended.2.2.1 [(true, 1), (false, 2), (true, 3), (false, 4)] 9 []
     (by decide)).trans (by decide),
   claim_C7_retry_policy_amended.2.2.2 [ReqOutcome.success 7] ⟨ReqOutput.ok 7, 1, 1, []⟩
     (by decide)⟩

/-- Helper: once the accumulated count has reached the cap, the loop
guard fails and no further page is fetched. -/
theorem getFollowingGo_stop_limit (pages : List (List JsUser)) (ml : Nat)
    (acc : List JsUser) (s : Nat) (h : ml ≤ acc.length) :
    getFollowingGo pages ml acc s = (acc, s) := by
  rw [getFollowingGo.eq_def, if_pos h]

/-- Helper: with no pages left the loop returns the accumulator. -/
theorem getFollowingGo_nil (ml : Nat) (acc : List JsUser) (s : Nat) :
    getFollowingGo [] ml acc s = (acc, s) := by
  rw [getFollowingGo.eq_def]
  by_cases h : ml ≤ acc.length
  · rw [if_pos h]
  · rw [if_neg h]

/-- Helper: a page with no results breaks the loop. -/
theorem getFollowingGo_cons_empty (p : List JsUser) (rest : List (List JsUser))
    (ml : Nat) (acc : List JsUser) (s : Nat) (hp : p.isEmpty) :
    getFollowingGo (p :: rest) ml acc s = (acc, s) := by
  rw [getFollowingGo.eq_def]
  by_cases h : ml ≤ acc.length
  · rw [if_pos h]
  · rw [if_neg h]
    simp [hp]

/-- Helper: below the cap, a nonempty page is appended whole, one
inter-page sleep is performed, and the loop continues. -/
theorem getFollowingGo_cons_step (p : List JsUser) (rest : List (List JsUser))
    (ml : Nat) (acc : List JsUser) (s : Nat) (h1 : ¬ ml ≤ acc.length)
    (h2 : ¬ p.isEmpty) :
    getFollowingGo (p :: rest) ml acc s = getFollowingGo rest ml (acc ++ p) (s + 1) := by
  rw [getFollowingGo.eq_def, if_neg h1]
  simp [h2]

/-- Helper: the accumulated list never grows past the cap by a full
page: it stays below acc.length or maxLimit + P - 1, whichever is
larger, when every page has at most P entries. -/
theorem getFollowingGo_length_le (pages : List (List JsUser)) :
    ∀ (ml P : Nat) (acc : List JsUser) (s : Nat),
      (∀ p ∈ pages, p.length ≤ P) →
      (getFollowingGo pages ml acc s).1.length ≤ max acc.length (ml + P - 1) := by
  induction pages with
  | nil =>
    intro ml P acc s _
    rw [getFollowingGo_nil]
    exact le_max_left _ _
  | cons p rest ih =>
    intro ml P acc s hp
    by_cases h1 : ml ≤ acc.length
    · rw [getFollowingGo_stop_limit _ _ _ _ h1]
      exact le_max_left _ _
    · by_cases h2 : p.isEmpty
      · rw [getFollowingGo_cons_empty _ _ _ _ _ h2]
        exact le_max_left _ _
      · rw [getFollowingGo_cons_step _ _ _ _ _ h1 h2]
        have hrec := ih ml P (acc ++ p) (s + 1)
          (fun q hq => hp q (List.mem_cons_of_mem _ hq))
        have hplen : p.length ≤ P := hp p (List.mem_cons_self _ _)
        have hlen : (acc ++ p).length = acc.length + p.length := List.length_append _ _
        omega

/-- Helper: at most one inter-page sleep per available page. -/
theorem getFollowingGo_sleeps_le (pages : List (List JsUser)) :
    ∀ (ml : Nat) (acc : List JsUser) (s : Nat),
      (getFollowingGo pages ml acc s).2 ≤ s + pages.length := by
  induction pages with
  | nil =>
    intro ml acc s
    rw [getFollowingGo_nil]
    simp
  | cons p rest ih =>
    intro ml acc s
    by_cases h1 : ml ≤ acc.length
    · rw [getFollowingGo_stop_limit _ _ _ _ h1]
      simp
    · by_cases h2 : p.isEmpty
      · rw [getFollowingGo_cons_empty _ _ _ _ _ h2]
        simp
      · rw [getFollowingGo_cons_step _ _ _ _ _ h1 h2]
        have := ih ml (acc ++ p) (s + 1)
        simp only [List.length_cons]
        omega

/-- Claim C9 (corrected): counterexample to "the returned list never
contains more than the configured maximum number of entries".  With a
cap of 2, the loop is entered with 0 accumulated entries and the page
of three followees is appended whole, so getFollowing returns 3 > 2
entries. -/
theorem claim_C9_counterexample :
    (getFollowing [[mkFollowee "a", mkFollowee "b", mkFollowee "c"]] 2).1.length = 3 ∧
    ¬ (getFollowing [[mkFollowee "a", mkFollowee "b", mkFollowee "c"]] 2).1.length ≤ 2 := by
  constructor
  · decide
  · decide

/-- Claim C9 as amended: getFollowing pages via the continuation
chain, stopping when a page returns no results or the accumulated
count has reached maxLimit, with one fixed delay per fetched page;
because the cap is checked before each fetch and a page is appended
whole, the returned list can exceed maxLimit by up to one page: its
length is at most maxLimit + P - 1 when every page holds at most P
entries (so at most 2599 for the default 2500 cap and 100-entry
pages), and the number of inter-page delays never exceeds the number
of available pages. -/
theorem claim_C9_pagination_amended :
    (∀ (pages : List (List JsUser)) (maxLimit P : Nat),
      (∀ p ∈ pages, p.length ≤ P) →
      (getFollowing pages maxLimit).1.length ≤ maxLimit + P - 1) ∧
    (∀ (rest : List (List JsUser)) (maxLimit : Nat),
      getFollowing ([] :: rest) maxLimit = ([], 0)) ∧
    (∀ (pages : List (List JsUser)) (maxLimit : Nat) (acc : List JsUser) (s : Nat),
      maxLimit ≤ acc.length → getFollowingGo pages maxLimit acc s = (acc, s)) ∧
    (∀ (pages : List (List JsUser)) (maxLimit : Nat),
      (getFollowing pages maxLimit).2 ≤ pages.length) := by
  refine ⟨?_, ?_, ?_, ?_⟩
  · intro pages maxLimit P hp
    have := getFollowingGo_length_le pages maxLimit P [] 0 hp
    simpa [getFollowing] using this
  · intro rest maxLimit
    rw [getFollowing]
    by_cases h : maxLimit ≤ ([] : List JsUser).length
    · rw [getFollowingGo_stop_limit _ _ _ _ h]
    · rw [getFollowingGo_cons_empty _ _ _ _ _ (by simp)]
  · intro pages maxLimit acc s h
    exact getFollowingGo_stop_limit _ _ _ _ h
  · intro pages maxLimit
    have := getFollowingGo_sleeps_le pages maxLimit [] 0
    simpa [getFollowing] using this

/-- Witness for the amended claim C9 at concrete schedules: two
two-entry pages against a cap of 3 give 4 entries, within the
cap + P - 1 bound; an immediately-empty page yields nothing; a
saturated accumulator stops the loop; the sleep count is bounded by
the page count. -/
theorem claim_C9_pagination_amended_witness :
    (getFollowing [[mkFollowee "a", mkFollowee "b"], [mkFollowee "c", mkFollowee "d"]] 3).1.length ≤
      3 + 2 - 1 ∧
    getFollowing ([] :: [[mkFollowee "a"]]) 5 = ([], 0) ∧
    getFollowingGo [[mkFollowee "b"]] 1 [mkFollowee "a"] 0 = ([mkFollowee "a"], 0) ∧
    (getFollowing [[mkFollowee "a"], [mkFollowee "b"]] 10).2 ≤ 2 :=
  ⟨claim_C9_pagination_amended.1 [[mkFollowee "a", mkFollowee "b"],
      [mkFollowee "c", mkFollowee "d"]] 3 2 (by decide),
   claim_C9_pagination_amended.2.1 [[mkFollowee "a"]] 5,
   claim_C9_pagination_amended.2.2.1 [[mkFollowee "b"]] 1 [mkFollowee "a"] 0 (by decide),
   claim_C9_pagination_amended.2.2.2 [[mkFollowee "a"], [mkFollowee "b"]] 10⟩

/-- Claim C5 (confirmed).  For an account whose stored record exists,
is not stale (the shipped config passes refreshHours = Infinity, so
no stored record is ever stale), and is marked checked_in_niche from
a prior run, processUser returns the stored record unchanged, leaves
the whole store (users and tweets) untouched, and never invokes the
classifier: re-processing an already-classified account is idempotent
across restarts. -/
theorem claim_C5_classified_idempotent (cfg : CrawlConfig) (db : CrawlerDb)
    (remoteUser : String → JsUser) (remoteTweets : String → List Tweet)
    (classifier : JsUser → List Tweet → Bool) (now : Nat) (item : WorkItem)
    (u : JsUser) (hrh : cfg.refreshHours = none)
    (hdb : getUser db.users item.user_id = some u)
    (hcls : u.checked_in_niche = some true) :
    processUser cfg db remoteUser remoteTweets classifier now item =
      ⟨db, some u, false⟩ := by
  have hdb' : db.users item.user_id = some u := hdb
  rw [processUser]
  simp [clientGetUserDetails, isUserStale, hdb', hrh, hcls]

/-- Witness for claim C5: a one-record store with a classified record
is returned as-is, with the store unchanged and the classifier not
called. -/
theorem claim_C5_classified_idempotent_witness :
    processUser ⟨5000, 3, none⟩ dbA (fun _ => sampleUser) (fun _ => [])
      (fun _ _ => true) 99 ⟨"a", 1⟩ = ⟨dbA, some recA, false⟩ :=
  claim_C5_classified_idempotent ⟨5000, 3, none⟩ dbA (fun _ => sampleUser)
    (fun _ => []) (fun _ _ => true) 99 ⟨"a", 1⟩ recA rfl (by decide) (by decide)

/-- Claim C2 (corrected): counterexample to "at depth equal to the
ceiling, processing enqueues zero new work items".  With ceiling
maxDepth = 2, an in-niche account above the floor processed at item
depth exactly 2 passes shouldAddUsersFollowing (depth <= maxDepth)
and its unseen followee is enqueued at depth 3. -/
theorem claim_C2_counterexample :
    (processUserAndFollowingExpand ⟨5, 2, none⟩ ∅ emptyStore (fun _ => []) 50
        (some inNicheUserX) ⟨"x", 2⟩ [mkFollowee "v"]).newItems = [⟨"v", 3⟩] ∧
    (processUserAndFollowingExpand ⟨5, 2, none⟩ ∅ emptyStore (fun _ => []) 50
        (some inNicheUserX) ⟨"x", 2⟩ [mkFollowee "v"]).newItems ≠ [] := by
  constructor
  · decide
  · decide

/-- Claim C2 as amended: the depth ceiling is inclusive for
expansion - an account whose item depth is at most maxDepth (hence
also at exactly maxDepth, not only at maxDepth - 1) may have its
followees enqueued at depth + 1 when its classification is positive
and it meets the popularity floor; processing enqueues zero work
items only when the item depth exceeds maxDepth. -/
theorem claim_C2_depth_ceiling_amended :
    (∀ (cfg : CrawlConfig) (seen : Finset String) (db : Store) (edges : EdgeStore)
      (now : Nat) (user : Option JsUser) (item : WorkItem) (following : List JsUser),
      cfg.maxDepth < item.depth →
      (processUserAndFollowingExpand cfg seen db edges now user item
        following).newItems = []) ∧
    (∀ (cfg : CrawlConfig) (seen : Finset String) (db : Store) (edges : EdgeStore)
      (now : Nat) (u : JsUser) (item : WorkItem) (v : JsUser),
      item.depth ≤ cfg.maxDepth → u.is_in_niche = some true →
      cfg.minFollowers ≤ u.follower_count → v.user_id ∉ seen →
      (processUserAndFollowingExpand cfg seen db edges now (some u) item
        [v]).newItems = [⟨v.user_id, item.depth + 1⟩]) := by
  constructor
  · intro cfg seen db edges now user item following h
    have hd : ¬ (item.depth ≤ cfg.maxDepth) := by omega
    match user with
    | none => rfl
    | some u =>
      simp [processUserAndFollowingExpand, shouldAddUsersFollowing, hd]
  · intro cfg seen db edges now u item v h1 h2 h3 h4
    simp [processUserAndFollowingExpand, shouldAddUsersFollowing, h1, h2, h3,
      addNewUsers, addNewUsersFilter, h4]

/-- Witness for the amended claim C2 at a concrete configuration
(floor 5, ceiling 2): at item depth 3 nothing is enqueued, at item
depth 2 the unseen followee is enqueued at depth 3. -/
theorem claim_C2_depth_ceiling_amended_witness :
    (processUserAndFollowingExpand ⟨5, 2, none⟩ ∅ emptyStore (fun _ => []) 50
        (some inNicheUserX) ⟨"x", 3⟩ [mkFollowee "v"]).newItems = [] ∧
    (processUserAndFollowingExpand ⟨5, 2, none⟩ ∅ emptyStore (fun _ => []) 50
        (some inNicheUserX) ⟨"x", 2⟩ [mkFollowee "v"]).newItems = [⟨"v", 3⟩] :=
  ⟨claim_C2_depth_ceiling_amended.1 ⟨5, 2, none⟩ ∅ emptyStore (fun _ => []) 50
      (some inNicheUserX) ⟨"x", 3⟩ [mkFollowee "v"] (by decide),
   (claim_C2_depth_ceiling_amended.2 ⟨5, 2, none⟩ ∅ emptyStore (fun _ => []) 50
      inNicheUserX ⟨"x", 2⟩ (mkFollowee "v") (by decide) (by decide) (by decide)
      (by decide)).trans (by decide)⟩

/-- Helper: the kept followees form a sublist of the input list. -/
theorem addNewUsersFilter_sublist (users : List JsUser) :
    ∀ (seen : Finset String), (addNewUsersFilter seen users).2.Sublist users := by
  induction users with
  | nil => intro seen; simp [addNewUsersFilter]
  | cons u rest ih =>
    intro seen
    rw [addNewUsersFilter]
    by_cases hin : u.user_id ∈ seen
    · rw [if_pos hin]
      exact (ih seen).cons u
    · rw [if_neg hin]
      exact (ih (insert u.user_id seen)).cons₂ u

/-- Helper: with pairwise-distinct followee ids, the addNewUsers
filter keeps exactly the followees whose id is not already visited,
and the visited set afterwards is the union of the old one with all
the ids. -/
theorem addNewUsersFilter_eq (users : List JsUser) :
    ∀ (seen : Finset String), (users.map JsUser.user_id).Nodup →
      addNewUsersFilter seen users =
        (seen ∪ (users.map JsUser.user_id).toFinset,
          users.filter (fun u => decide (u.user_id ∉ seen))) := by
  induction users with
  | nil => intro seen _; simp [addNewUsersFilter]
  | cons u rest ih =>
    intro seen hnd
    simp only [List.map_cons, List.nodup_cons, List.mem_map] at hnd
    obtain ⟨hu, hrest⟩ := hnd
    rw [addNewUsersFilter]
    by_cases hin : u.user_id ∈ seen
    · rw [if_pos hin, ih seen hrest]
      refine Prod.ext ?_ ?_
      · simp only [List.map_cons, List.toFinset_cons]
        ext x
        simp only [Finset.mem_union, Finset.mem_insert, List.mem_toFinset]
        constructor
        · rintro (h | h)
          · exact Or.inl h
          · exact Or.inr (Or.inr h)
        · rintro (h | rfl | h)
          · exact Or.inl h
          · exact Or.inl hin
          · exact Or.inr h
      · simp [List.filter_cons, hin]
    · rw [if_neg hin, ih (insert u.user_id seen) hrest]
      refine Prod.ext ?_ ?_
      · simp only [List.map_cons, List.toFinset_cons]
        rw [Finset.insert_union, ← Finset.union_insert]
      · have hfc : List.filter (fun v => decide (v.user_id ∉ insert u.user_id seen)) rest =
            List.filter (fun v => decide (v.user_id ∉ seen)) rest := by
          refine List.filter_congr ?_
          intro v hv
          have hne : v.user_id ≠ u.user_id := by
            intro he
            exact hu ⟨v, hv, he⟩
          simp [hne]
        simp only [hfc]
        simp [List.filter_cons, hin]

/-- Helper: a followee list whose entries with a given id all carry a
last_updated timestamp produces no write at that id. -/
theorem addNewUsersSave_skip (l : List JsUser) :
    ∀ (db : Store) (now depth : Nat) (x : String),
      (∀ w ∈ l, w.user_id = x → w.last_updated.isSome) →
      addNewUsersSave now depth l db x = db x := by
  induction l with
  | nil => intro db now depth x _; rfl
  | cons w rest ih =>
    intro db now depth x h
    rw [addNewUsersSave]
    by_cases hw : w.last_updated.isSome
    · simp only [hw, if_true]
      exact ih db now depth x (fun v hv => h v (List.mem_cons_of_mem _ hv))
    · have hne : w.user_id ≠ x := fun he => hw (h w (List.mem_cons_self _ _) he)
      have hne' : x ≠ w.user_id := fun he => hne he.symm
      simp only [hw, if_false, Bool.false_eq_true]
      rw [ih _ now depth x (fun v hv => h v (List.mem_cons_of_mem _ hv))]
      simp [saveUser, discoveredRecord, hne']

/-- Helper: a kept followee with no last_updated field and an id that
appears only once is written as a fresh unclassified record. -/
theorem addNewUsersSave_write (l : List JsUser) :
    ∀ (db : Store) (now depth : Nat) (u : JsUser),
      (l.map JsUser.user_id).Nodup → u ∈ l → u.last_updated = none →
      addNewUsersSave now depth l db u.user_id =
        some (discoveredRecord u now depth) := by
  induction l with
  | nil => intro db now depth u _ hu; cases hu
  | cons w rest ih =>
    intro db now depth u hnd hu hlu
    simp only [List.map_cons, List.nodup_cons, List.mem_map] at hnd
    obtain ⟨hw, hrest⟩ := hnd
    rcases List.mem_cons.mp hu with rfl | hmem
    · rw [addNewUsersSave]
      have : u.last_updated.isSome = false := by simp [hlu]
      simp only [this, if_false, Bool.false_eq_true]
      rw [addNewUsersSave_skip rest _ now depth u.user_id
        (fun v hv he => absurd ⟨v, hv, he⟩ hw)]
      simp [saveUser, discoveredRecord]
    · rw [addNewUsersSave]
      by_cases hwlu : w.last_updated.isSome
      · simp only [hwlu, if_true]
        exact ih _ now depth u hrest hmem hlu
      · simp only [hwlu, if_false, Bool.false_eq_true]
        exact ih _ now depth u hrest hmem hlu

/-- Claim C6 (corrected): counterexample to "a followee is enqueued
only if it is not in the Visited Set AND not already marked
followers_crawled in the store".  The store-awareness check is
commented out in addNewUsers: a followee whose stored record is
marked followers_crawled = true, but whose id is not in the seenUsers
set, is still enqueued. -/
theorem claim_C6_counterexample :
    (addNewUsers ∅ (saveUser emptyStore crawledRecC) 99 [crawledRecC] 2).newItems =
      [⟨"c", 2⟩] ∧
    (getUser (saveUser emptyStore crawledRecC) "c").map JsUser.followers_crawled =
      some (some true) := by
  constructor
  · decide
  · decide

/-- Claim C6 as amended: during expansion a followee is enqueued if
and only if its id is not already in the in-memory visited set (the
store is not consulted); every enqueued followee that has no prior
record (its object carries no last_updated) is persisted as a
not-yet-classified, not-yet-expanded account at the given depth (the
call site passes the discoverer's depth plus one); followees whose
object carries last_updated are enqueued without being persisted. -/
theorem claim_C6_enqueue_condition_amended :
    (∀ (seen : Finset String) (db : Store) (now : Nat) (users : List JsUser)
      (depth : Nat) (u : JsUser),
      (users.map JsUser.user_id).Nodup → u ∈ users →
      ((⟨u.user_id, depth⟩ : WorkItem) ∈ (addNewUsers seen db now users depth).newItems ↔
        u.user_id ∉ seen)) ∧
    (∀ (seen : Finset String) (db : Store) (now : Nat) (users : List JsUser)
      (depth : Nat) (u : JsUser),
      (users.map JsUser.user_id).Nodup → u ∈ users → u.user_id ∉ seen →
      u.last_updated = none →
      getUser (addNewUsers seen db now users depth).db u.user_id =
        some (discoveredRecord u now depth)) := by
  constructor
  · intro seen db now users depth u hnd hu
    simp only [addNewUsers, addNewUsersFilter_eq users seen hnd]
    constructor
    · intro hmem
      rw [List.mem_map] at hmem
      obtain ⟨v, hvf, hveq⟩ := hmem
      rw [List.mem_filter] at hvf
      obtain ⟨hvusers, hvp⟩ := hvf
      have hid : v.user_id = u.user_id := congrArg WorkItem.user_id hveq
      have hvu : v = u := List.inj_on_of_nodup_map hnd hvusers hu hid
      subst hvu
      simpa using hvp
    · intro hnotin
      rw [List.mem_map]
      exact ⟨u, List.mem_filter.mpr ⟨hu, by simpa using hnotin⟩, rfl⟩
  · intro seen db now users depth u hnd hu hseen hlast
    simp only [addNewUsers, addNewUsersFilter_eq users seen hnd]
    have hndf : ((users.filter (fun v => decide (v.user_id ∉ seen))).map
        JsUser.user_id).Nodup :=
      List.Nodup.sublist ((List.filter_sublist users).map JsUser.user_id) hnd
    exact addNewUsersSave_write _ db now depth u hndf
      (List.mem_filter.mpr ⟨hu, by simpa using hseen⟩) hlast

/-- Witness for the amended claim C6 at a concrete call: a fresh
followee not in the visited set is enqueued, and its discovered
record is persisted at the given depth. -/
theorem claim_C6_enqueue_condition_amended_witness :
    ((⟨"v", 1⟩ : WorkItem) ∈ (addNewUsers ∅ emptyStore 7 [mkFollowee "v"] 1).newItems ↔
      "v" ∉ (∅ : Finset String)) ∧
    getUser (addNewUsers ∅ emptyStore 7 [mkFollowee "v"] 1).db "v" =
      some (discoveredRecord (mkFollowee "v") 7 1) :=
  ⟨claim_C6_enqueue_condition_amended.1 ∅ emptyStore 7 [mkFollowee "v"] 1
      (mkFollowee "v") (by decide) (by decide),
    claim_C6_enqueue_condition_amended.2 ∅ emptyStore 7 [mkFollowee "v"] 1
      (mkFollowee "v") (by decide) (by decide) (by decide) (by decide)⟩

/-- Claim C10 (confirmed).  addNewUsers performs no store write for a
followee whose object carries a last_updated timestamp (its stored
record, every field included, is left unchanged), and any key whose
stored value changes belongs to a received followee whose object has
no last_updated. -/
theorem claim_C10_existing_record_frame :
    (∀ (seen : Finset String) (db : Store) (now : Nat) (users : List JsUser)
      (depth : Nat) (u : JsUser) (t : Nat),
      (users.map JsUser.user_id).Nodup → u ∈ users → u.last_updated = some t →
      getUser (addNewUsers seen db now users depth).db u.user_id =
        getUser db u.user_id) ∧
    (∀ (seen : Finset String) (db : Store) (now : Nat) (users : List JsUser)
      (depth : Nat) (x : String),
      getUser (addNewUsers seen db now users depth).db x ≠ getUser db x →
      ∃ w ∈ users, w.user_id = x ∧ w.last_updated = none) := by
  constructor
  · intro seen db now users depth u t hnd hu hlast
    simp only [addNewUsers]
    refine addNewUsersSave_skip _ db now depth u.user_id ?_
    intro w hw heq
    have hwusers : w ∈ users := (addNewUsersFilter_sublist users seen).subset hw
    have hwu : w = u := List.inj_on_of_nodup_map hnd hwusers hu heq
    subst hwu
    simp [hlast]
  · intro seen db now users depth x hne
    by_contra hnone
    push_neg at hnone
    refine hne ?_
    simp only [addNewUsers]
    refine addNewUsersSave_skip _ db now depth x ?_
    intro w hw heq
    have hwusers : w ∈ users := (addNewUsersFilter_sublist users seen).subset hw
    have := hnone w hwusers heq
    exact Option.isSome_iff_ne_none.mpr this

/-- Witness for claim C10: a followee carrying last_updated leaves
its stored record untouched, and a store key that does change comes
from a followee with no last_updated. -/
theorem claim_C10_existing_record_frame_witness :
    getUser (addNewUsers ∅ (saveUser emptyStore crawledRecC) 99 [crawledRecC] 2).db "c" =
      getUser (saveUser emptyStore crawledRecC) "c" ∧
    ∃ w ∈ [mkFollowee "v"], w.user_id = "v" ∧ w.last_updated = none :=
  ⟨claim_C10_existing_record_frame.1 ∅ (saveUser emptyStore crawledRecC) 99
      [crawledRecC] 2 crawledRecC 3 (by decide) (by decide) (by decide),
    claim_C10_existing_record_frame.2 ∅ emptyStore 7 [mkFollowee "v"] 1 "v"
      (by decide)⟩



/-- Helper: each scheduler action keeps the Set within the
concurrency bound. -/
theorem poolStep_card (maxConcurrent : Nat) (st st2 : PoolState) (e : PoolEvent)
    (hs : poolStep maxConcurrent st e = some st2)
    (h : st.processing.length ≤ maxConcurrent) :
    st2.processing.length ≤ maxConcurrent := by
  cases e with
  | addItems l =>
    rw [poolStep] at hs; cases hs; exact h
  | dispatch =>
    rw [poolStep] at hs
    split at hs
    · cases hs
    · split at hs
      · rename_i x hd tl hqe hc
        cases hs
        simp only [setInsert]
        by_cases hm : hd ∈ st.processing
        · simp only [hm, if_true]
          exact h
        · simp only [hm, if_false]
          simp only [List.length_cons]
          omega
      · cases hs
  | complete i =>
    rw [poolStep] at hs
    split at hs
    · cases hs
      exact le_trans (List.Sublist.length_le (List.erase_sublist _ _)) h
    · cases hs

/-- Helper: the duplicate-dispatch ghost flag never resets. -/
theorem poolStep_dup_mono (maxConcurrent : Nat) (st st2 : PoolState) (e : PoolEvent)
    (hs : poolStep maxConcurrent st e = some st2)
    (h : st2.dupDispatch = false) : st.dupDispatch = false := by
  cases e with
  | addItems l =>
    rw [poolStep] at hs; cases hs; exact h
  | dispatch =>
    rw [poolStep] at hs
    split at hs
    · cases hs
    · split at hs
      · cases hs
        simp only [Bool.or_eq_false_iff] at h
        exact h.1
      · cases hs
  | complete i =>
    rw [poolStep] at hs
    split at hs
    · cases hs; exact h
    · cases hs

/-- Helper: while no dispatch has hit a duplicate, the Set (as a
list) coincides with the list of ids of unsettled invocations. -/
theorem poolStep_good (maxConcurrent : Nat) (st st2 : PoolState) (e : PoolEvent)
    (hs : poolStep maxConcurrent st e = some st2)
    (hdup : st2.dupDispatch = false)
    (heq : st.processing = st.running) :
    st2.processing = st2.running := by
  cases e with
  | addItems l =>
    rw [poolStep] at hs; cases hs; exact heq
  | dispatch =>
    rw [poolStep] at hs
    split at hs
    · cases hs
    · split at hs
      · rename_i x hd tl hqe hc
        cases hs
        simp only [Bool.or_eq_false_iff] at hdup
        have hni : hd ∉ st.processing := by
          have := hdup.2
          simpa using this
        simp only [setInsert, hni, if_false]
        rw [heq]
      · cases hs
  | complete i =>
    rw [poolStep] at hs
    split at hs
    · cases hs
      simp only []
      rw [heq]
    · cases hs

/-- Helper: flag monotonicity along a whole run. -/
theorem poolRun_dup_mono (maxConcurrent : Nat) (evs : List PoolEvent) :
    ∀ (st st2 : PoolState), poolRun maxConcurrent evs st = some st2 →
      st2.dupDispatch = false → st.dupDispatch = false := by
  induction evs with
  | nil =>
    intro st st2 hr h
    rw [poolRun] at hr; cases hr; exact h
  | cons e es ih =>
    intro st st2 hr h
    rw [poolRun] at hr
    match hstep : poolStep maxConcurrent st e with
    | none => rw [hstep] at hr; cases hr
    | some stm =>
      rw [hstep] at hr
      exact poolStep_dup_mono _ _ _ _ hstep (ih stm st2 hr h)

/-- Helper: the two run invariants of the event model. -/
theorem poolRun_inv (maxConcurrent : Nat) (evs : List PoolEvent) :
    ∀ (st st2 : PoolState), poolRun maxConcurrent evs st = some st2 →
      (st.processing.length ≤ maxConcurrent →
        st2.processing.length ≤ maxConcurrent) ∧
      (st2.dupDispatch = false → st.processing = st.running →
        st2.processing = st2.running) := by
  induction evs with
  | nil =>
    intro st st2 hr
    rw [poolRun] at hr
    cases hr
    exact ⟨fun h => h, fun _ h => h⟩
  | cons e es ih =>
    intro st st2 hr
    rw [poolRun] at hr
    match hstep : poolStep maxConcurrent st e with
    | none => rw [hstep] at hr; cases hr
    | some stm =>
      rw [hstep] at hr
      constructor
      · intro h
        exact (ih stm st2 hr).1 (poolStep_card _ _ _ _ hstep h)
      · intro hdup heq
        have hdm : stm.dupDispatch = false := poolRun_dup_mono _ es stm st2 hr hdup
        exact (ih stm st2 hr).2 hdup (poolStep_good _ _ _ _ hstep hdm heq)

/-- Claim C1 (corrected): counterexample.  The JS processing Set
counts object references, not invocations: the same item enqueued
twice is dispatched twice but occupies one Set slot.  With
maxConcurrent = 2 and queue [a, a, b], the inner while dispatches
three handler invocations in one round - the second add of a is a Set
no-op, so the size guard still sees 1 < 2 - leaving 3 > 2 dispatched,
unsettled handler invocations in flight at one observation point. -/
theorem claim_C1_counterexample :
    poolRun 2 [PoolEvent.addItems [0, 0, 1], PoolEvent.dispatch, PoolEvent.dispatch,
        PoolEvent.dispatch] (initPool []) = some ⟨[], [1, 0, 0], [1, 0], true⟩ ∧
    (([1, 0, 0] : List Nat).length = 3 ∧ 2 < 3) := by
  constructor
  · decide
  · decide

/-- Claim C1 as amended: in every state reachable under any
interleaving of addItems, dispatch and completion actions, the
in-flight Set's size never exceeds maxConcurrent; and as long as no
dispatch has found its item already in the Set (no duplicate
reference enqueued while in flight), the dispatched-and-unsettled
handler invocations are exactly the Set members, so their number
never exceeds maxConcurrent either. -/
theorem claim_C1_concurrency_bound_amended (maxConcurrent : Nat) (items : List Nat)
    (evs : List PoolEvent) (st : PoolState)
    (hr : poolRun maxConcurrent evs (initPool items) = some st) :
    st.processing.length ≤ maxConcurrent ∧
    (st.dupDispatch = false → st.running = st.processing ∧
      st.running.length ≤ maxConcurrent) := by
  have hinv := poolRun_inv maxConcurrent evs (initPool items) st hr
  have hcard : st.processing.length ≤ maxConcurrent := by
    refine hinv.1 ?_
    simp [initPool]
  refine ⟨hcard, fun hdup => ?_⟩
  have heq : st.processing = st.running := hinv.2 hdup rfl
  exact ⟨heq.symm, heq ▸ hcard⟩

/-- Witness for the amended claim C1: one item dispatched and settled
with maxConcurrent = 1. -/
theorem claim_C1_concurrency_bound_amended_witness :
    (⟨[], [], [], false⟩ : PoolState).processing.length ≤ 1 ∧
    ((⟨[], [], [], false⟩ : PoolState).dupDispatch = false →
      (⟨[], [], [], false⟩ : PoolState).running =
        (⟨[], [], [], false⟩ : PoolState).processing ∧
      (⟨[], [], [], false⟩ : PoolState).running.length ≤ 1) :=
  claim_C1_concurrency_bound_amended 1 [5] [PoolEvent.dispatch, PoolEvent.complete 5]
    ⟨[], [], [], false⟩ (by decide)

/-- Helper: the items dispatched by one inner-loop pass, followed by
the remaining queue, reconstitute the queue it started from. -/
theorem dispatchLoop_queue (maxConcurrent : Nat) (q : List Nat) :
    ∀ (run : List (Nat × Nat)) (ps : List Nat) (dup : Bool) (durs : List Nat),
      (dispatchLoop maxConcurrent q run ps dup durs).2.2 ++
        (dispatchLoop maxConcurrent q run ps dup durs).1.queue = q := by
  induction q with
  | nil => intro run ps dup durs; simp [dispatchLoop]
  | cons i rest ih =>
    intro run ps dup durs
    rw [dispatchLoop]
    by_cases hc : ps.length < maxConcurrent
    · simp only [hc, if_true]
      simp only [List.cons_append, List.cons.injEq, true_and]
      exact ih _ _ _ _
    · simp only [hc, if_false, List.nil_append]

/-- Helper: the inner loop keeps the Set within the concurrency
bound. -/
theorem dispatchLoop_card (maxConcurrent : Nat) (q : List Nat) :
    ∀ (run : List (Nat × Nat)) (ps : List Nat) (dup : Bool) (durs : List Nat),
      ps.length ≤ maxConcurrent →
      (dispatchLoop maxConcurrent q run ps dup durs).1.processing.length ≤
        maxConcurrent := by
  induction q with
  | nil => intro run ps dup durs h; simpa [dispatchLoop] using h
  | cons i rest ih =>
    intro run ps dup durs h
    rw [dispatchLoop]
    by_cases hc : ps.length < maxConcurrent
    · simp only [hc, if_true]
      refine ih _ _ _ _ ?_
      simp only [setInsert]
      by_cases hm : i ∈ ps
      · simpa [hm] using h
      · simp only [hm, if_false, List.length_cons]
        omega
    · simp only [hc, if_false]
      exact h

/-- Helper: the inner loop never resets the duplicate-dispatch
flag. -/
theorem dispatchLoop_dup_mono (maxConcurrent : Nat) (q : List Nat) :
    ∀ (run : List (Nat × Nat)) (ps : List Nat) (dup : Bool) (durs : List Nat),
      (dispatchLoop maxConcurrent q run ps dup durs).1.dupDispatch = false →
      dup = false := by
  induction q with
  | nil => intro run ps dup durs h; simpa [dispatchLoop] using h
  | cons i rest ih =>
    intro run ps dup durs h
    rw [dispatchLoop] at h
    by_cases hc : ps.length < maxConcurrent
    · simp only [hc, if_true] at h
      have := ih _ _ _ _ h
      exact (Bool.or_eq_false_iff.mp this).1
    · simpa [hc] using h

/-- Helper: while no duplicate was dispatched, the Set stays equal to
the ids of the unsettled invocations. -/
theorem dispatchLoop_good (maxConcurrent : Nat) (q : List Nat) :
    ∀ (run : List (Nat × Nat)) (ps : List Nat) (dup : Bool) (durs : List Nat),
      (dispatchLoop maxConcurrent q run ps dup durs).1.dupDispatch = false →
      ps = run.map Prod.snd →
      (dispatchLoop maxConcurrent q run ps dup durs).1.processing =
        (dispatchLoop maxConcurrent q run ps dup durs).1.running.map Prod.snd := by
  induction q with
  | nil => intro run ps dup durs _ h; simpa [dispatchLoop] using h
  | cons i rest ih =>
    intro run ps dup durs hdup heq
    rw [dispatchLoop] at hdup ⊢
    by_cases hc : ps.length < maxConcurrent
    · simp only [hc, if_true] at hdup ⊢
      have hmono := dispatchLoop_dup_mono maxConcurrent rest _ _ _ _ hdup
      have hni : i ∉ ps := by
        have := (Bool.or_eq_false_iff.mp hmono).2
        simpa using this
      refine ih _ _ _ _ hdup ?_
      rw [setInsert, if_neg hni, heq]
      rfl
    · simp only [hc, if_false] at hdup ⊢
      exact heq

/-- Helper: with an exhausted duration schedule every new invocation
gets the default duration of one tick, and the schedule stays
exhausted. -/
theorem dispatchLoop_durs_nil (maxConcurrent : Nat) (q : List Nat) :
    ∀ (run : List (Nat × Nat)) (ps : List Nat) (dup : Bool),
      (∀ p ∈ run, p.1 ≤ 1) →
      (dispatchLoop maxConcurrent q run ps dup []).2.1 = [] ∧
      (∀ p ∈ (dispatchLoop maxConcurrent q run ps dup []).1.running, p.1 ≤ 1) := by
  induction q with
  | nil => intro run ps dup h; simpa [dispatchLoop] using h
  | cons i rest ih =>
    intro run ps dup h
    rw [dispatchLoop]
    by_cases hc : ps.length < maxConcurrent
    · simp only [hc, if_true]
      refine ih _ _ _ ?_
      intro p hp
      rcases List.mem_cons.mp hp with rfl | hmem
      · simp [List.headD]
      · exact h p hmem
    · simp only [hc, if_false]
      exact ⟨trivial, h⟩

/-- Helper: with capacity available and a nonempty queue, the inner
loop dispatches at least its head. -/
theorem dispatchLoop_progress (maxConcurrent : Nat) (i : Nat) (rest : List Nat)
    (run : List (Nat × Nat)) (ps : List Nat) (dup : Bool) (durs : List Nat)
    (hc : ps.length < maxConcurrent) :
    (dispatchLoop maxConcurrent (i :: rest) run ps dup durs).2.2 ≠ [] := by
  rw [dispatchLoop]
  simp [hc]

/-- Helper: the inner loop keeps the Set inside the ids of unsettled
invocations. -/
theorem dispatchLoop_subset (maxConcurrent : Nat) (q : List Nat) :
    ∀ (run : List (Nat × Nat)) (ps : List Nat) (dup : Bool) (durs : List Nat),
      (∀ x ∈ ps, x ∈ run.map Prod.snd) →
      ∀ x ∈ (dispatchLoop maxConcurrent q run ps dup durs).1.processing,
        x ∈ (dispatchLoop maxConcurrent q run ps dup durs).1.running.map Prod.snd := by
  induction q with
  | nil => intro run ps dup durs h; simpa [dispatchLoop] using h
  | cons i rest ih =>
    intro run ps dup durs h
    rw [dispatchLoop]
    by_cases hc : ps.length < maxConcurrent
    · simp only [hc, if_true]
      refine ih _ _ _ _ ?_
      intro x hx
      simp only [setInsert] at hx
      by_cases hm : i ∈ ps
      · rw [if_pos hm] at hx
        simp only [List.map_cons]
        exact List.mem_cons_of_mem _ (h x hx)
      · rw [if_neg hm] at hx
        rcases List.mem_cons.mp hx with rfl | hmem
        · simp
        · simp only [List.map_cons]
          exact List.mem_cons_of_mem _ (h x hmem)
    · simp only [hc, if_false]
      exact h

/-- Helper: the inner loop keeps the Set duplicate-free. -/
theorem dispatchLoop_nodup (maxConcurrent : Nat) (q : List Nat) :
    ∀ (run : List (Nat × Nat)) (ps : List Nat) (dup : Bool) (durs : List Nat),
      ps.Nodup →
      (dispatchLoop maxConcurrent q run ps dup durs).1.processing.Nodup := by
  induction q with
  | nil => intro run ps dup durs h; simpa [dispatchLoop] using h
  | cons i rest ih =>
    intro run ps dup durs h
    rw [dispatchLoop]
    by_cases hc : ps.length < maxConcurrent
    · simp only [hc, if_true]
      refine ih _ _ _ _ ?_
      simp only [setInsert]
      by_cases hm : i ∈ ps
      · simpa [hm] using h
      · simp only [hm, if_false]
        exact List.nodup_cons.mpr ⟨hm, h⟩
    · simp only [hc, if_false]
      exact h

/-- Helper: a handler with one tick (or less) left settles at the
next tick; if every invocation has at most one tick left, the tick
settles all of them. -/
theorem tickRunning_all_one (run : List (Nat × Nat)) (h : ∀ p ∈ run, p.1 ≤ 1) :
    tickRunning run = ([], run.map Prod.snd) := by
  induction run with
  | nil => rfl
  | cons p rest ih =>
    obtain ⟨t, i⟩ := p
    have ht : t ≤ 1 := h (t, i) (List.mem_cons_self _ _)
    rw [tickRunning]
    rw [ih (fun q hq => h q (List.mem_cons_of_mem _ hq))]
    simp [ht]

/-- Helper: settled ids and surviving invocations both come from the
invocations that were running. -/
theorem tickRunning_subset (run : List (Nat × Nat)) :
    (∀ x ∈ (tickRunning run).2, x ∈ run.map Prod.snd) ∧
    (∀ x ∈ (tickRunning run).1.map Prod.snd, x ∈ run.map Prod.snd) := by
  induction run with
  | nil => simp [tickRunning]
  | cons p rest ih =>
    obtain ⟨t, i⟩ := p
    rw [tickRunning]
    by_cases ht : t ≤ 1
    · simp only [ht, if_true]
      constructor
      · intro x hx
        rcases List.mem_cons.mp hx with rfl | hmem
        · simp
        · simp only [List.map_cons]
          exact List.mem_cons_of_mem _ (ih.1 x hmem)
      · intro x hx
        simp only [List.map_cons]
        exact List.mem_cons_of_mem _ (ih.2 x hx)
    · simp only [ht, if_false]
      constructor
      · intro x hx
        simp only [List.map_cons]
        exact List.mem_cons_of_mem _ (ih.1 x hx)
      · intro x hx
        simp only [List.map_cons] at hx ⊢
        rcases List.mem_cons.mp hx with rfl | hmem
        · simp
        · exact List.mem_cons_of_mem _ (ih.2 x hmem)

/-- Helper: erasing a batch of ids from a list that starts with an id
not in the batch keeps that head. -/
theorem foldl_erase_cons (c : List Nat) :
    ∀ (i : Nat) (l : List Nat), i ∉ c →
      c.foldl (fun s j => s.erase j) (i :: l) =
        i :: c.foldl (fun s j => s.erase j) l := by
  induction c with
  | nil => intro i l _; rfl
  | cons j rest ih =>
    intro i l hni
    have hji : i ≠ j := fun he => hni (he ▸ List.mem_cons_self _ _)
    simp only [List.foldl_cons]
    rw [List.erase_cons_tail (by simpa using hji)]
    exact ih i (l.erase j) (fun hm => hni (List.mem_cons_of_mem _ hm))

/-- Helper: the finally-deletes of the handlers settled by one tick
leave the Set holding exactly the ids of the surviving invocations,
keeping it duplicate-free. -/
theorem tickRunning_erase (run : List (Nat × Nat)) :
    ∀ (ps : List Nat), ps = run.map Prod.snd → (run.map Prod.snd).Nodup →
      (tickRunning run).2.foldl (fun s j => s.erase j) ps =
        (tickRunning run).1.map Prod.snd ∧
      ((tickRunning run).1.map Prod.snd).Nodup := by
  induction run with
  | nil =>
    intro ps h _
    subst h
    exact ⟨rfl, List.nodup_nil⟩
  | cons p rest ih =>
    intro ps h hnd
    obtain ⟨t, i⟩ := p
    simp only [List.map_cons] at h hnd
    obtain ⟨hni, hndr⟩ := List.nodup_cons.mp hnd
    subst h
    rw [tickRunning]
    by_cases ht : t ≤ 1
    · simp only [ht, if_true]
      simp only [List.foldl_cons, List.erase_cons_head]
      exact ih _ rfl hndr
    · simp only [ht, if_false]
      have hsub := tickRunning_subset rest
      have hnic : i ∉ (tickRunning rest).2 := fun hm => hni (hsub.1 i hm)
      rw [foldl_erase_cons _ _ _ hnic]
      obtain ⟨e1, e2⟩ := ih _ rfl hndr
      refine ⟨by rw [e1]; rfl, ?_⟩
      simp only [List.map_cons]
      refine List.nodup_cons.mpr ⟨?_, e2⟩
      exact fun hm => hni (hsub.2 i hm)

/-- Helper: erasing a batch that covers a duplicate-free list empties
it. -/
theorem foldl_erase_nil (c : List Nat) :
    ∀ (ps : List Nat), ps.Nodup → (∀ x ∈ ps, x ∈ c) →
      c.foldl (fun s j => s.erase j) ps = [] := by
  induction c with
  | nil =>
    intro ps _ h
    exact List.eq_nil_iff_forall_not_mem.mpr
      (fun x hx => List.not_mem_nil x (h x hx))
  | cons j rest ih =>
    intro ps hnd h
    simp only [List.foldl_cons]
    refine ih (ps.erase j) (hnd.erase j) ?_
    intro x hx
    obtain ⟨hxj, hxps⟩ := hnd.mem_erase_iff.mp hx
    rcases List.mem_cons.mp (h x hxps) with rfl | hmem
    · exact absurd rfl hxj
    · exact hmem

/-- Helper: the finally-deletes only shrink the Set. -/
theorem foldl_erase_length_le (c : List Nat) :
    ∀ (ps : List Nat), (c.foldl (fun s j => s.erase j) ps).length ≤ ps.length := by
  induction c with
  | nil => intro ps; exact le_refl _
  | cons j rest ih =>
    intro ps
    simp only [List.foldl_cons]
    exact le_trans (ih (ps.erase j))
      (List.Sublist.length_le (List.erase_sublist _ _))

/-- Helper: the finally-deletes keep the Set duplicate-free. -/
theorem foldl_erase_nodup (c : List Nat) :
    ∀ (ps : List Nat), ps.Nodup →
      (c.foldl (fun s j => s.erase j) ps).Nodup := by
  induction c with
  | nil => intro ps h; exact h
  | cons j rest ih =>
    intro ps h
    simp only [List.foldl_cons]
    exact ih _ (h.erase j)

/-- Helper: a round's dispatches, followed by the queue it leaves,
reconstitute the queue it started from plus the round's addItems
batch. -/
theorem poolIter_queue (maxConcurrent : Nat) (st : RunPoolState) (durs : List Nat)
    (adds : List Nat) :
    (poolIter maxConcurrent st durs adds).2.2 ++
      (poolIter maxConcurrent st durs adds).1.queue = st.queue ++ adds := by
  simp only [poolIter]
  rw [← List.append_assoc, dispatchLoop_queue]

/-- Helper: a round keeps the Set within the concurrency bound. -/
theorem poolIter_card (maxConcurrent : Nat) (st : RunPoolState) (durs : List Nat)
    (adds : List Nat) (h : st.processing.length ≤ maxConcurrent) :
    (poolIter maxConcurrent st durs adds).1.processing.length ≤ maxConcurrent := by
  simp only [poolIter]
  exact le_trans (foldl_erase_length_le _ _)
    (dispatchLoop_card maxConcurrent st.queue _ _ _ _ h)

/-- Helper: a round never resets the duplicate-dispatch flag. -/
theorem poolIter_dup_mono (maxConcurrent : Nat) (st : RunPoolState) (durs : List Nat)
    (adds : List Nat)
    (h : (poolIter maxConcurrent st durs adds).1.dupDispatch = false) :
    st.dupDispatch = false := by
  simp only [poolIter] at h
  exact dispatchLoop_dup_mono maxConcurrent st.queue _ _ _ _ h

/-- Helper: while no duplicate was dispatched, a round preserves the
correspondence between the Set and the unsettled invocations. -/
theorem poolIter_good (maxConcurrent : Nat) (st : RunPoolState) (durs : List Nat)
    (adds : List Nat)
    (hdup : (poolIter maxConcurrent st durs adds).1.dupDispatch = false)
    (heq : st.processing = st.running.map Prod.snd)
    (hnd : (st.running.map Prod.snd).Nodup) :
    (poolIter maxConcurrent st durs adds).1.processing =
      (poolIter maxConcurrent st durs adds).1.running.map Prod.snd ∧
    ((poolIter maxConcurrent st durs adds).1.running.map Prod.snd).Nodup := by
  simp only [poolIter] at hdup ⊢
  have hgood := dispatchLoop_good maxConcurrent st.queue st.running st.processing
    st.dupDispatch durs hdup heq
  have hpsnd : (dispatchLoop maxConcurrent st.queue st.running st.processing
      st.dupDispatch durs).1.processing.Nodup :=
    dispatchLoop_nodup maxConcurrent st.queue _ _ _ _ (heq ▸ hnd)
  have hmnd : ((dispatchLoop maxConcurrent st.queue st.running st.processing
      st.dupDispatch durs).1.running.map Prod.snd).Nodup := hgood ▸ hpsnd
  have := tickRunning_erase (dispatchLoop maxConcurrent st.queue st.running
    st.processing st.dupDispatch durs).1.running _ hgood hmnd
  exact this

/-- Helper: from a quiescent state (no invocation in flight, empty
Set) with an exhausted duration schedule, a round dispatches at least
one queued item, all its handlers settle within the round, and the
state is quiescent again. -/
theorem poolIter_quiescent (maxConcurrent : Nat) (st : RunPoolState)
    (adds : List Nat) (hrun : st.running = []) (hps : st.processing = [])
    (hmc : 1 ≤ maxConcurrent) (hq : st.queue ≠ []) :
    (poolIter maxConcurrent st [] adds).1.running = [] ∧
    (poolIter maxConcurrent st [] adds).1.processing = [] ∧
    (poolIter maxConcurrent st [] adds).2.1 = [] ∧
    (poolIter maxConcurrent st [] adds).2.2 ≠ [] := by
  have hdurs := dispatchLoop_durs_nil maxConcurrent st.queue st.running
    st.processing st.dupDispatch (by simp [hrun])
  have htick := tickRunning_all_one _ hdurs.2
  have hnodup : (dispatchLoop maxConcurrent st.queue st.running st.processing
      st.dupDispatch []).1.processing.Nodup :=
    dispatchLoop_nodup maxConcurrent st.queue _ _ _ _ (by simp [hps])
  have hsubset := dispatchLoop_subset maxConcurrent st.queue st.running
    st.processing st.dupDispatch [] (by simp [hps])
  refine ⟨?_, ?_, ?_, ?_⟩
  · simp only [poolIter, htick]
  · simp only [poolIter, htick]
    exact foldl_erase_nil _ _ hnodup hsubset
  · simp only [poolIter]
    exact hdurs.1
  · simp only [poolIter]
    obtain ⟨i, rest, hqe⟩ := List.exists_cons_of_ne_nil hq
    rw [hqe]
    exact dispatchLoop_progress maxConcurrent i rest _ _ _ _ (by simp [hps]; omega)

/-- Helper: the run never resets the duplicate-dispatch flag. -/
theorem runPool_dup_mono (maxConcurrent : Nat) :
    ∀ (fuel : Nat) (st : RunPoolState) (durs : List Nat) (adds : List (List Nat))
      (disp : List Nat) (out : RunPoolState × List Nat × List (List Nat)),
      runPool maxConcurrent fuel st durs adds disp = some out →
      out.1.dupDispatch = false → st.dupDispatch = false := by
  intro fuel
  induction fuel with
  | zero => intro st durs adds disp out hr; cases hr
  | succ fuel ih =>
    intro st durs adds disp out hr h
    rw [runPool] at hr
    by_cases hg : st.queue = [] ∧ st.processing = []
    · rw [if_pos hg] at hr
      cases hr
      exact h
    · rw [if_neg hg] at hr
      exact poolIter_dup_mono _ _ _ _ (ih _ _ _ _ _ hr h)

/-- Helper: the main specification of the fuel-bounded run: it
returns only with an empty queue and empty Set; the dispatch log is
exactly the starting queue followed by the consumed addItems batches
in order; and while no duplicate was dispatched, no invocation is
left unsettled at return. -/
theorem runPool_spec (maxConcurrent : Nat) :
    ∀ (fuel : Nat) (st : RunPoolState) (durs : List Nat) (adds : List (List Nat))
      (disp : List Nat) (stf : RunPoolState) (dispf : List Nat)
      (addsLeft : List (List Nat)),
      runPool maxConcurrent fuel st durs adds disp = some (stf, dispf, addsLeft) →
      stf.queue = [] ∧ stf.processing = [] ∧
      (∃ k, addsLeft = adds.drop k ∧
        dispf = disp ++ st.queue ++ (adds.take k).join) ∧
      (stf.dupDispatch = false → st.processing = st.running.map Prod.snd →
        (st.running.map Prod.snd).Nodup → stf.running = []) := by
  intro fuel
  induction fuel with
  | zero => intro st durs adds disp stf dispf addsLeft hr; cases hr
  | succ fuel ih =>
    intro st durs adds disp stf dispf addsLeft hr
    rw [runPool] at hr
    by_cases hg : st.queue = [] ∧ st.processing = []
    · rw [if_pos hg] at hr
      cases hr
      refine ⟨hg.1, hg.2, ⟨0, by simp, by simp [hg.1]⟩, ?_⟩
      intro hdup heq hnd
      have hmnil : st.running.map Prod.snd = [] := by rw [← heq, hg.2]
      exact List.map_eq_nil_iff.mp hmnil
    · rw [if_neg hg] at hr
      obtain ⟨ha, hb, ⟨k, hk1, hk2⟩, hd⟩ := ih _ _ _ _ _ _ _ hr
      have htake : (adds.take (k + 1)).join =
          adds.headD [] ++ (adds.tail.take k).join := by
        cases adds <;> simp
      refine ⟨ha, hb, ⟨k + 1, ?_, ?_⟩, ?_⟩
      · rw [hk1, ← List.drop_one, List.drop_drop, Nat.add_comm]
      · rw [hk2, htake]
        have hcons := poolIter_queue maxConcurrent st durs (adds.headD [])
        simp only [← List.append_assoc]
        congr 1
        rw [List.append_assoc, List.append_assoc, hcons]
      · intro hdup heq hnd
        have hdm : (poolIter maxConcurrent st durs (adds.headD [])).1.dupDispatch =
            false := runPool_dup_mono _ _ _ _ _ _ _ hr hdup
        obtain ⟨g1, g2⟩ := poolIter_good maxConcurrent st durs (adds.headD [])
          hdm heq hnd
        exact hd hdup g1 g2

/-- Helper: with at least one worker and terminating handlers (the
exhausted duration schedule gives every handler one tick), the run
returns on sufficient fuel: no queued or added item waits forever. -/
theorem runPool_total (maxConcurrent : Nat) (hmc : 1 ≤ maxConcurrent) :
    ∀ (n : Nat) (st : RunPoolState) (adds : List (List Nat)) (disp : List Nat),
      st.running = [] → st.processing = [] →
      st.queue.length + adds.join.length + adds.length < n →
      ∃ fuel out, runPool maxConcurrent fuel st [] adds disp = some out := by
  intro n
  induction n with
  | zero => intro st adds disp _ _ h; omega
  | succ n ih =>
    intro st adds disp hrun hps hm
    by_cases hq : st.queue = []
    · exact ⟨1, (st, disp, adds), by rw [runPool, if_pos ⟨hq, hps⟩]⟩
    · obtain ⟨q1, q2, q3, q4⟩ := poolIter_quiescent maxConcurrent st (adds.headD [])
        hrun hps hmc hq
      have hcons := poolIter_queue maxConcurrent st [] (adds.headD [])
      have hlen : (poolIter maxConcurrent st [] (adds.headD [])).2.2.length +
          (poolIter maxConcurrent st [] (adds.headD [])).1.queue.length =
          st.queue.length + (adds.headD []).length := by
        have := congrArg List.length hcons
        simpa [List.length_append] using this
      have hm1 : 1 ≤ (poolIter maxConcurrent st [] (adds.headD [])).2.2.length := by
        cases hdd : (poolIter maxConcurrent st [] (adds.headD [])).2.2 with
        | nil => exact absurd hdd q4
        | cons a b => simp
      have hbound : (adds.headD []).length + adds.tail.join.length +
          adds.tail.length ≤ adds.join.length + adds.length := by
        cases adds <;> simp [List.length_append]
      have hmeas : (poolIter maxConcurrent st [] (adds.headD [])).1.queue.length +
          adds.tail.join.length + adds.tail.length < n := by
        omega
      obtain ⟨fuel, out, hout⟩ := ih (poolIter maxConcurrent st [] (adds.headD [])).1
        adds.tail (disp ++ (poolIter maxConcurrent st [] (adds.headD [])).2.2)
        q1 q2 hmeas
      refine ⟨fuel + 1, out, ?_⟩
      rw [runPool, if_neg (fun hcontra => hq hcontra.1)]
      show runPool maxConcurrent fuel (poolIter maxConcurrent st [] (adds.headD [])).1
        (poolIter maxConcurrent st [] (adds.headD [])).2.1 adds.tail
        (disp ++ (poolIter maxConcurrent st [] (adds.headD [])).2.2) = some out
      rw [q3]
      exact hout

/-- Claim C3 (corrected): counterexample to "process returns only
when no handler invocation is in flight".  The same item enqueued
twice (same reference) with handler durations 1 and 3 ticks: both
invocations share one Set entry; when the first settles, its finally
deletes the item, the Set and queue are empty, the outer guard fails
and process returns - while the second invocation (2 ticks left) is
still in flight. -/
theorem claim_C3_counterexample :
    runPool 2 3 ⟨[0, 0], [], [], false⟩ [1, 3] [] [] =
      some (⟨[], [(2, 0)], [], true⟩, [0, 0], []) ∧
    ((⟨[], [(2, 0)], [], true⟩ : RunPoolState).running ≠ [] ∧
      (⟨[], [(2, 0)], [], true⟩ : RunPoolState).processing = []) := by
  constructor
  · decide
  · decide

/-- Claim C3 as amended: process returns only at an observation point
where the pending queue is empty and the in-flight Set is empty; when
no duplicate reference was dispatched while in flight, no handler
invocation is unsettled at return either; the dispatch log at return
is exactly the initial items followed by the consumed addItems
batches, in FIFO order - every item enqueued during the run is
dispatched; and with at least one worker and terminating handlers the
run does return. -/
theorem claim_C3_run_drain_amended :
    (∀ (maxConcurrent fuel : Nat) (items durs : List Nat) (adds : List (List Nat))
      (stf : RunPoolState) (dispf : List Nat) (addsLeft : List (List Nat)),
      workerPoolProcess maxConcurrent fuel items durs adds =
        some (stf, dispf, addsLeft) →
      stf.queue = [] ∧ stf.processing = [] ∧
      (∃ k, addsLeft = adds.drop k ∧ dispf = items ++ (adds.take k).join) ∧
      (stf.dupDispatch = false → stf.running = [])) ∧
    (∀ (maxConcurrent : Nat) (items : List Nat) (adds : List (List Nat)),
      1 ≤ maxConcurrent →
      ∃ fuel out, workerPoolProcess maxConcurrent fuel items [] adds = some out) := by
  constructor
  · intro maxConcurrent fuel items durs adds stf dispf addsLeft hr
    obtain ⟨ha, hb, ⟨k, h1, h2⟩, hd⟩ := runPool_spec maxConcurrent fuel
      ⟨items, [], [], false⟩ durs adds [] stf dispf addsLeft hr
    refine ⟨ha, hb, ⟨k, h1, by simpa using h2⟩, fun hdup => hd hdup rfl (by simp)⟩
  · intro maxConcurrent items adds hmc
    obtain ⟨fuel, out, hout⟩ := runPool_total maxConcurrent hmc
      (items.length + adds.join.length + adds.length + 1) ⟨items, [], [], false⟩
      adds [] rfl rfl (by simp)
    exact ⟨fuel, out, hout⟩

/-- Witness for the amended claim C3: a pool with two workers, one
initial item, one addItems batch landing during the first round, and
one-tick handlers drains completely in three rounds, dispatching both
items in order; and a one-worker pool on one item returns. -/
theorem claim_C3_run_drain_amended_witness :
    ((⟨[], [], [], false⟩ : RunPoolState).queue = [] ∧
      (⟨[], [], [], false⟩ : RunPoolState).processing = [] ∧
      (∃ k, ([] : List (List Nat)) = ([[8]] : List (List Nat)).drop k ∧
        [7, 8] = [7] ++ (([[8]] : List (List Nat)).take k).join) ∧
      ((⟨[], [], [], false⟩ : RunPoolState).dupDispatch = false →
        (⟨[], [], [], false⟩ : RunPoolState).running = [])) ∧
    (∃ fuel out, workerPoolProcess 1 fuel [9] [] [] = some out) :=
  ⟨claim_C3_run_drain_amended.1 2 3 [7] [] [[8]] ⟨[], [], [], false⟩ [7, 8] []
      (by decide),
    claim_C3_run_drain_amended.2 1 [9] [] (by decide)⟩
